import Mathlib

/-!
# Verification of the Orthodromic/Loxodromic Path Visualizer core

Shallow embedding of the geodesy math (`utils/geo.ts`), the loxodromic
path sampler and orthographic visibility logic (`GlobeVisualization.tsx`),
the Mercator view-state logic (`MercatorVisualization.tsx`) and the
visualize-request handler (`App.tsx`), over exact real arithmetic.
-/

open Real

set_option maxHeartbeats 1000000

noncomputable section

/-- Geographic coordinate record, from `src/types.ts`
(`lat` in degrees, `lon` in degrees). -/
structure Coordinates where
  lat : ℝ
  lon : ℝ

/-- `deg2rad` from `utils/geo.ts`: `deg * (Math.PI/180)`. -/
def deg2rad (deg : ℝ) : ℝ := deg * (Real.pi / 180)

/-- JavaScript's `Math.atan2(y, x)` (signed zeros ignored, which the code
never distinguishes). -/
def atan2 (y x : ℝ) : ℝ :=
  if 0 < x then Real.arctan (y / x)
  else if x < 0 then
    (if 0 ≤ y then Real.arctan (y / x) + Real.pi else Real.arctan (y / x) - Real.pi)
  else
    (if 0 < y then Real.pi / 2 else if y < 0 then -(Real.pi / 2) else 0)

/-- `calculateOrthodromicDistance` from `utils/geo.ts`, line for line:
haversine formula with `R = 6371` and `c = 2·atan2(√a, √(1-a))`. -/
def calculateOrthodromicDistance (p1 p2 : Coordinates) : ℝ :=
  let R : ℝ := 6371
  let dLat := deg2rad (p2.lat - p1.lat)
  let dLon := deg2rad (p2.lon - p1.lon)
  let a :=
    Real.sin (dLat / 2) * Real.sin (dLat / 2) +
    Real.cos (deg2rad p1.lat) * Real.cos (deg2rad p2.lat) *
    Real.sin (dLon / 2) * Real.sin (dLon / 2)
  let c := 2 * atan2 (Real.sqrt a) (Real.sqrt (1 - a))
  R * c

/-- `calculateLoxodromicDistance` from `utils/geo.ts`, line for line:
rhumb-line distance with antimeridian wrap, stretched-latitude `Δψ`,
the `10e-12` degeneracy threshold and `q = cos φ1` fallback. -/
def calculateLoxodromicDistance (p1 p2 : Coordinates) : ℝ :=
  let R : ℝ := 6371
  let phi1 := deg2rad p1.lat
  let phi2 := deg2rad p2.lat
  let deltaPhi := phi2 - phi1
  let deltaLon0 := deg2rad (p2.lon - p1.lon)
  let deltaLon :=
    if Real.pi < |deltaLon0| then
      (if 0 < deltaLon0 then -(2 * Real.pi - deltaLon0) else 2 * Real.pi + deltaLon0)
    else deltaLon0
  let deltaPsi :=
    Real.log (Real.tan (phi2 / 2 + Real.pi / 4) / Real.tan (phi1 / 2 + Real.pi / 4))
  let q := if 10e-12 < |deltaPsi| then deltaPhi / deltaPsi else Real.cos phi1
  Real.sqrt (deltaPhi * deltaPhi + q * q * deltaLon * deltaLon) * R

/-- The haversine reference value exactly as the specification writes it:
`a = sin²(Δφ/2) + cos φ1 · cos φ2 · sin²(Δλ/2)`,
`c = 2·atan2(√a, √(1-a))`, `d = R·c` with `R = 6371`. -/
def orthodromicDistanceKm (p1 p2 : Coordinates) : ℝ :=
  let phi1 := deg2rad p1.lat
  let phi2 := deg2rad p2.lat
  let dPhi := phi2 - phi1
  let dLambda := deg2rad p2.lon - deg2rad p1.lon
  let a := Real.sin (dPhi / 2) ^ 2 + Real.cos phi1 * Real.cos phi2 * Real.sin (dLambda / 2) ^ 2
  let c := 2 * atan2 (Real.sqrt a) (Real.sqrt (1 - a))
  6371 * c

/-- The rhumb-line distance exactly as the specification writes it:
`Δλ` corrected by `±2π` when `|Δλ| > π`, `Δψ = ln(tan(φ2/2+π/4)/tan(φ1/2+π/4))`,
`q = Δφ/Δψ` when `|Δψ| > 1e-11` else `cos φ1`, `d = R·√(Δφ² + q²·Δλ²)`. -/
def loxodromicDistanceKm (p1 p2 : Coordinates) : ℝ :=
  let phi1 := deg2rad p1.lat
  let phi2 := deg2rad p2.lat
  let dPhi := phi2 - phi1
  let dLambda0 := deg2rad p2.lon - deg2rad p1.lon
  let dLambda :=
    if Real.pi < |dLambda0| then
      (if 0 < dLambda0 then dLambda0 - 2 * Real.pi else dLambda0 + 2 * Real.pi)
    else dLambda0
  let dPsi :=
    Real.log (Real.tan (phi2 / 2 + Real.pi / 4) / Real.tan (phi1 / 2 + Real.pi / 4))
  let q := if 1e-11 < |dPsi| then dPhi / dPsi else Real.cos phi1
  6371 * Real.sqrt (dPhi ^ 2 + q ^ 2 * dLambda ^ 2)

/-- A coordinate is valid when its latitude is in `[-90, 90]` and its
longitude in `[-180, 180]` (the `Coordinates` contract of the spec). -/
def ValidCoord (p : Coordinates) : Prop :=
  -90 ≤ p.lat ∧ p.lat ≤ 90 ∧ -180 ≤ p.lon ∧ p.lon ≤ 180

lemma deg2rad_sub (x y : ℝ) : deg2rad (x - y) = deg2rad x - deg2rad y := by
  unfold deg2rad; ring

lemma deg2rad_neg (x : ℝ) : deg2rad (-x) = -deg2rad x := by
  unfold deg2rad; ring

lemma atan2_zero_one : atan2 0 1 = 0 := by
  unfold atan2
  norm_num

lemma calculateOrthodromicDistance_eq_spec (p1 p2 : Coordinates) :
    calculateOrthodromicDistance p1 p2 = orthodromicDistanceKm p1 p2 := by
  unfold calculateOrthodromicDistance orthodromicDistanceKm
  rw [deg2rad_sub, deg2rad_sub]
  ring_nf

lemma sin_half_neg (x y : ℝ) :
    Real.sin (deg2rad (x - y) / 2) = -Real.sin (deg2rad (y - x) / 2) := by
  have h : deg2rad (x - y) / 2 = -(deg2rad (y - x) / 2) := by unfold deg2rad; ring
  rw [h, Real.sin_neg]

lemma calculateOrthodromicDistance_symm (p1 p2 : Coordinates) :
    calculateOrthodromicDistance p1 p2 = calculateOrthodromicDistance p2 p1 := by
  unfold calculateOrthodromicDistance
  dsimp only
  rw [sin_half_neg p2.lat p1.lat, sin_half_neg p2.lon p1.lon]
  ring_nf

lemma calculateOrthodromicDistance_self (p : Coordinates) :
    calculateOrthodromicDistance p p = 0 := by
  unfold calculateOrthodromicDistance
  simp [deg2rad, atan2_zero_one]

/-- **C1.** For valid coordinates, `calculateOrthodromicDistance` equals the
haversine reference value `R·c` of the spec (R = 6371,
`a = sin²(Δφ/2) + cos φ1 cos φ2 sin²(Δλ/2)`, `c = 2·atan2(√a, √(1-a))`),
is symmetric in its two arguments, and returns 0 when the endpoints agree. -/
theorem orthodromic_matches_haversine_spec (p1 p2 : Coordinates)
    (h1 : ValidCoord p1) (h2 : ValidCoord p2) :
    calculateOrthodromicDistance p1 p2 = orthodromicDistanceKm p1 p2 ∧
    calculateOrthodromicDistance p1 p2 = calculateOrthodromicDistance p2 p1 ∧
    (p1 = p2 → calculateOrthodromicDistance p1 p2 = 0) :=
  ⟨calculateOrthodromicDistance_eq_spec p1 p2,
   calculateOrthodromicDistance_symm p1 p2,
   fun h => h ▸ calculateOrthodromicDistance_self p1⟩

/-- Witness for C1 at Paris/New York. -/
theorem orthodromic_matches_haversine_spec_witness :
    (ValidCoord ⟨48.8566, 2.3522⟩ ∧ ValidCoord ⟨40.7128, -74.006⟩) ∧
    (calculateOrthodromicDistance ⟨48.8566, 2.3522⟩ ⟨40.7128, -74.006⟩ =
        orthodromicDistanceKm ⟨48.8566, 2.3522⟩ ⟨40.7128, -74.006⟩ ∧
      calculateOrthodromicDistance ⟨48.8566, 2.3522⟩ ⟨40.7128, -74.006⟩ =
        calculateOrthodromicDistance ⟨40.7128, -74.006⟩ ⟨48.8566, 2.3522⟩ ∧
      ((⟨48.8566, 2.3522⟩ : Coordinates) = ⟨40.7128, -74.006⟩ →
        calculateOrthodromicDistance ⟨48.8566, 2.3522⟩ ⟨40.7128, -74.006⟩ = 0)) :=
  ⟨⟨by constructor <;> norm_num, by constructor <;> norm_num⟩,
   orthodromic_matches_haversine_spec _ _
     (by constructor <;> norm_num) (by constructor <;> norm_num)⟩

/-- **C2.** For valid coordinates, `calculateLoxodromicDistance` equals the
spec's rhumb-line formula `R·√(Δφ² + q²·Δλ²)` with the antimeridian wrap,
`Δψ = ln(tan(φ2/2+π/4)/tan(φ1/2+π/4))`, and `q = Δφ/Δψ` when
`|Δψ| > 1e-11`, else `q = cos φ1`. -/
theorem loxodromic_matches_spec (p1 p2 : Coordinates)
    (h1 : ValidCoord p1) (h2 : ValidCoord p2) :
    calculateLoxodromicDistance p1 p2 = loxodromicDistanceKm p1 p2 := by
  unfold calculateLoxodromicDistance loxodromicDistanceKm
  dsimp only
  rw [show (10e-12 : ℝ) = 1e-11 by norm_num, deg2rad_sub]
  split_ifs <;> (rw [mul_comm]; congr 1; ring)

/-! ## Spherical geometry toolkit

Unit vectors on the sphere, the central angle, and the spherical triangle
inequality — used to relate the haversine value of the code to the true
angular distance. -/

/-- Dot product on `ℝ³` triples. -/
def dot3 (u v : ℝ × ℝ × ℝ) : ℝ := u.1 * v.1 + u.2.1 * v.2.1 + u.2.2 * v.2.2

/-- The unit vector of the sphere point at latitude `φ`, longitude `lam`
(both in radians). -/
def sphPoint (φ lam : ℝ) : ℝ × ℝ × ℝ :=
  (Real.cos φ * Real.cos lam, Real.cos φ * Real.sin lam, Real.sin φ)

/-- Central angle (angular distance in radians) between two sphere points. -/
def sAngle (φ1 lam1 φ2 lam2 : ℝ) : ℝ :=
  Real.arccos (dot3 (sphPoint φ1 lam1) (sphPoint φ2 lam2))

/-- The haversine quantity `a` at the radian level. -/
def hav (φ1 lam1 φ2 lam2 : ℝ) : ℝ :=
  Real.sin ((φ2 - φ1) / 2) ^ 2 +
    Real.cos φ1 * Real.cos φ2 * Real.sin ((lam2 - lam1) / 2) ^ 2

lemma dot3_comm (u v : ℝ × ℝ × ℝ) : dot3 u v = dot3 v u := by
  unfold dot3; ring

lemma dot3_sph_self (φ lam : ℝ) : dot3 (sphPoint φ lam) (sphPoint φ lam) = 1 := by
  unfold dot3 sphPoint
  dsimp only
  linear_combination Real.cos φ ^ 2 * Real.sin_sq_add_cos_sq lam + Real.sin_sq_add_cos_sq φ

lemma dot3_cauchy (u v : ℝ × ℝ × ℝ) : dot3 u v ^ 2 ≤ dot3 u u * dot3 v v := by
  unfold dot3
  nlinarith [sq_nonneg (u.1 * v.2.1 - u.2.1 * v.1), sq_nonneg (u.1 * v.2.2 - u.2.2 * v.1),
    sq_nonneg (u.2.1 * v.2.2 - u.2.2 * v.2.1)]

lemma dot3_le_one {u v : ℝ × ℝ × ℝ} (hu : dot3 u u = 1) (hv : dot3 v v = 1) :
    dot3 u v ≤ 1 := by
  nlinarith [dot3_cauchy u v, sq_nonneg (dot3 u v - 1)]

lemma neg_one_le_dot3 {u v : ℝ × ℝ × ℝ} (hu : dot3 u u = 1) (hv : dot3 v v = 1) :
    -1 ≤ dot3 u v := by
  nlinarith [dot3_cauchy u v, sq_nonneg (dot3 u v + 1)]

lemma sin_half_sq (x : ℝ) : Real.sin (x / 2) ^ 2 = (1 - Real.cos x) / 2 := by
  have h := Real.cos_two_mul' (x / 2)
  rw [show 2 * (x / 2) = x by ring] at h
  have h2 := Real.sin_sq_add_cos_sq (x / 2)
  linarith

/-- The haversine identity: the dot product of the two unit vectors is
`1 - 2·a`. -/
lemma dot3_sph (φ1 lam1 φ2 lam2 : ℝ) :
    dot3 (sphPoint φ1 lam1) (sphPoint φ2 lam2) = 1 - 2 * hav φ1 lam1 φ2 lam2 := by
  unfold dot3 sphPoint hav
  rw [sin_half_sq, sin_half_sq, Real.cos_sub, Real.cos_sub]
  ring

lemma arccos_anti {x y : ℝ} (h : x ≤ y) : Real.arccos y ≤ Real.arccos x := by
  rw [Real.arccos_eq_pi_div_two_sub_arcsin, Real.arccos_eq_pi_div_two_sub_arcsin]
  have := Real.monotone_arcsin h
  linarith

/-- The component of `x` orthogonal to `y` (when `c = dot3 x y`). -/
def perp (c : ℝ) (x y : ℝ × ℝ × ℝ) : ℝ × ℝ × ℝ :=
  (x.1 - c * y.1, x.2.1 - c * y.2.1, x.2.2 - c * y.2.2)

lemma dot3_perp (c d : ℝ) (x y z w : ℝ × ℝ × ℝ) :
    dot3 (perp c x y) (perp d z w) =
      dot3 x z - c * dot3 y z - d * dot3 x w + c * d * dot3 y w := by
  unfold dot3 perp
  dsimp only
  ring

/-- Cauchy–Schwarz applied to the components of `x`, `z` orthogonal to `y`. -/
lemma dot3_key {x y z : ℝ × ℝ × ℝ} (hx : dot3 x x = 1) (hy : dot3 y y = 1)
    (hz : dot3 z z = 1) :
    (dot3 x z - dot3 x y * dot3 y z) ^ 2 ≤ (1 - dot3 x y ^ 2) * (1 - dot3 y z ^ 2) := by
  have h := dot3_cauchy (perp (dot3 x y) x y) (perp (dot3 y z) z y)
  rw [dot3_perp, dot3_perp, dot3_perp] at h
  rw [hy, dot3_comm y x, dot3_comm z y] at h
  nlinarith [h]

/-- Spherical triangle inequality for the central angle. -/
lemma sAngle_triangle (φ1 l1 φ2 l2 φ3 l3 : ℝ) :
    sAngle φ1 l1 φ3 l3 ≤ sAngle φ1 l1 φ2 l2 + sAngle φ2 l2 φ3 l3 := by
  have hx := dot3_sph_self φ1 l1
  have hy := dot3_sph_self φ2 l2
  have hz := dot3_sph_self φ3 l3
  set x := sphPoint φ1 l1 with hxdef
  set y := sphPoint φ2 l2 with hydef
  set z := sphPoint φ3 l3 with hzdef
  have hd1u : dot3 x y ≤ 1 := dot3_le_one hx hy
  have hd1l : -1 ≤ dot3 x y := neg_one_le_dot3 hx hy
  have hd2u : dot3 y z ≤ 1 := dot3_le_one hy hz
  have hd2l : -1 ≤ dot3 y z := neg_one_le_dot3 hy hz
  have hkey := dot3_key hx hy hz
  have habs : |dot3 x z - dot3 x y * dot3 y z| ≤
      Real.sqrt ((1 - dot3 x y ^ 2) * (1 - dot3 y z ^ 2)) := by
    rw [← Real.sqrt_sq_eq_abs]
    exact Real.sqrt_le_sqrt hkey
  have hmul : Real.sqrt ((1 - dot3 x y ^ 2) * (1 - dot3 y z ^ 2)) =
      Real.sqrt (1 - dot3 x y ^ 2) * Real.sqrt (1 - dot3 y z ^ 2) :=
    Real.sqrt_mul (by nlinarith) _
  have hge : dot3 x y * dot3 y z -
      Real.sqrt (1 - dot3 x y ^ 2) * Real.sqrt (1 - dot3 y z ^ 2) ≤ dot3 x z := by
    have := (abs_le.1 habs).1
    rw [hmul] at this
    linarith
  have hcos : Real.cos (Real.arccos (dot3 x y) + Real.arccos (dot3 y z)) =
      dot3 x y * dot3 y z -
        Real.sqrt (1 - dot3 x y ^ 2) * Real.sqrt (1 - dot3 y z ^ 2) := by
    rw [Real.cos_add, Real.cos_arccos hd1l hd1u, Real.cos_arccos hd2l hd2u,
      Real.sin_arccos, Real.sin_arccos]
  rcases le_or_lt (Real.arccos (dot3 x y) + Real.arccos (dot3 y z)) Real.pi with hle | hgt
  · have h5 : Real.cos (Real.arccos (dot3 x y) + Real.arccos (dot3 y z)) ≤ dot3 x z := by
      rw [hcos]; exact hge
    have h6 := arccos_anti h5
    rw [Real.arccos_cos
      (add_nonneg (Real.arccos_nonneg _) (Real.arccos_nonneg _)) hle] at h6
    exact h6
  · exact le_trans (Real.arccos_le_pi _) (le_of_lt hgt)

lemma hav_nonneg {φ1 l1 φ2 l2 : ℝ} (hc : 0 ≤ Real.cos φ1 * Real.cos φ2) :
    0 ≤ hav φ1 l1 φ2 l2 := by
  unfold hav
  have := mul_nonneg hc (sq_nonneg (Real.sin ((l2 - l1) / 2)))
  nlinarith [sq_nonneg (Real.sin ((φ2 - φ1) / 2))]

lemma hav_le_one (φ1 l1 φ2 l2 : ℝ) : hav φ1 l1 φ2 l2 ≤ 1 := by
  have h := neg_one_le_dot3 (dot3_sph_self φ1 l1) (dot3_sph_self φ2 l2)
  rw [dot3_sph] at h
  linarith

lemma sqrt_hav_le_one {φ1 l1 φ2 l2 : ℝ} : Real.sqrt (hav φ1 l1 φ2 l2) ≤ 1 := by
  rw [show (1 : ℝ) = Real.sqrt 1 by rw [Real.sqrt_one]]
  exact Real.sqrt_le_sqrt (hav_le_one φ1 l1 φ2 l2)

lemma two_arcsin_eq_arccos {h : ℝ} (h0 : 0 ≤ h) (h1 : h ≤ 1) :
    Real.arccos (1 - 2 * h) = 2 * Real.arcsin (Real.sqrt h) := by
  have hs0 : 0 ≤ Real.sqrt h := Real.sqrt_nonneg h
  have hs1 : Real.sqrt h ≤ 1 := by
    rw [show (1 : ℝ) = Real.sqrt 1 by rw [Real.sqrt_one]]
    exact Real.sqrt_le_sqrt h1
  have harc0 : 0 ≤ Real.arcsin (Real.sqrt h) := Real.arcsin_nonneg.2 hs0
  have harc2 : Real.arcsin (Real.sqrt h) ≤ Real.pi / 2 := Real.arcsin_le_pi_div_two _
  have hsq : Real.sqrt h ^ 2 = h := Real.sq_sqrt h0
  have hsin : Real.sin (Real.arcsin (Real.sqrt h)) = Real.sqrt h :=
    Real.sin_arcsin (by linarith) hs1
  have hcos : Real.cos (2 * Real.arcsin (Real.sqrt h)) = 1 - 2 * h := by
    rw [Real.cos_two_mul', hsin]
    have hpyth := Real.sin_sq_add_cos_sq (Real.arcsin (Real.sqrt h))
    rw [hsin] at hpyth
    linarith
  rw [← hcos, Real.arccos_cos (by linarith) (by linarith)]

/-- The central angle, written through the haversine value. -/
lemma sAngle_as_arcsin (φ1 l1 φ2 l2 : ℝ) (hc : 0 ≤ Real.cos φ1 * Real.cos φ2) :
    sAngle φ1 l1 φ2 l2 = 2 * Real.arcsin (Real.sqrt (hav φ1 l1 φ2 l2)) := by
  unfold sAngle
  rw [dot3_sph, two_arcsin_eq_arccos (hav_nonneg hc) (hav_le_one φ1 l1 φ2 l2)]

/-- On `[0,1]`, the code's `atan2(√a, √(1-a))` is `arcsin √a`. -/
lemma atan2_sqrt_eq_arcsin {a : ℝ} (h0 : 0 ≤ a) (h1 : a ≤ 1) :
    atan2 (Real.sqrt a) (Real.sqrt (1 - a)) = Real.arcsin (Real.sqrt a) := by
  rcases eq_or_lt_of_le h1 with heq | hlt
  · subst heq
    norm_num [atan2, Real.arcsin_one]
  · have hx : 0 < Real.sqrt (1 - a) := Real.sqrt_pos.2 (by linarith)
    unfold atan2
    rw [if_pos hx]
    have hsl : Real.sqrt a < 1 := by
      rw [show (1 : ℝ) = Real.sqrt 1 by rw [Real.sqrt_one]]
      exact Real.sqrt_lt_sqrt h0 hlt
    have hmem : Real.sqrt a ∈ Set.Ioo (-(1 : ℝ)) 1 :=
      ⟨by linarith [Real.sqrt_nonneg a], hsl⟩
    rw [Real.arcsin_eq_arctan hmem, Real.sq_sqrt h0]

lemma deg2rad_mem_pi_half {x : ℝ} (hl : -90 ≤ x) (hr : x ≤ 90) :
    -(Real.pi / 2) ≤ deg2rad x ∧ deg2rad x ≤ Real.pi / 2 := by
  have hp : (0 : ℝ) < Real.pi / 180 := by positivity
  constructor
  · have := mul_le_mul_of_nonneg_right hl (le_of_lt hp)
    unfold deg2rad
    nlinarith
  · have := mul_le_mul_of_nonneg_right hr (le_of_lt hp)
    unfold deg2rad
    nlinarith

lemma cos_deg2rad_nonneg {x : ℝ} (hl : -90 ≤ x) (hr : x ≤ 90) :
    0 ≤ Real.cos (deg2rad x) := by
  obtain ⟨h1, h2⟩ := deg2rad_mem_pi_half hl hr
  exact Real.cos_nonneg_of_mem_Icc ⟨h1, h2⟩

/-- Bridge: on valid inputs, the code's orthodromic distance is `R` times
the central angle between the two sphere points. -/
lemma calculateOrthodromicDistance_eq_sAngle (p1 p2 : Coordinates)
    (h1 : ValidCoord p1) (h2 : ValidCoord p2) :
    calculateOrthodromicDistance p1 p2 =
      6371 * sAngle (deg2rad p1.lat) (deg2rad p1.lon) (deg2rad p2.lat) (deg2rad p2.lon) := by
  have hc1 : 0 ≤ Real.cos (deg2rad p1.lat) := cos_deg2rad_nonneg h1.1 h1.2.1
  have hc2 : 0 ≤ Real.cos (deg2rad p2.lat) := cos_deg2rad_nonneg h2.1 h2.2.1
  have hc := mul_nonneg hc1 hc2
  unfold calculateOrthodromicDistance
  dsimp only
  rw [deg2rad_sub, deg2rad_sub]
  rw [show Real.sin ((deg2rad p2.lat - deg2rad p1.lat) / 2) *
        Real.sin ((deg2rad p2.lat - deg2rad p1.lat) / 2) +
      Real.cos (deg2rad p1.lat) * Real.cos (deg2rad p2.lat) *
        Real.sin ((deg2rad p2.lon - deg2rad p1.lon) / 2) *
        Real.sin ((deg2rad p2.lon - deg2rad p1.lon) / 2) =
      hav (deg2rad p1.lat) (deg2rad p1.lon) (deg2rad p2.lat) (deg2rad p2.lon) by
    unfold hav; ring]
  rw [atan2_sqrt_eq_arcsin (hav_nonneg hc) (hav_le_one _ _ _ _),
    sAngle_as_arcsin _ _ _ _ hc]

/-- Chained triangle inequality along a polyline of sphere points. -/
lemma sAngle_chain (F : ℕ → ℝ × ℝ) (n : ℕ) :
    sAngle (F 0).1 (F 0).2 (F n).1 (F n).2 ≤
      ∑ i ∈ Finset.range n, sAngle (F i).1 (F i).2 (F (i + 1)).1 (F (i + 1)).2 := by
  induction n with
  | zero =>
      unfold sAngle
      rw [dot3_sph_self]
      simp [Real.arccos_one]
  | succ n ih =>
      rw [Finset.sum_range_succ]
      calc sAngle (F 0).1 (F 0).2 (F (n + 1)).1 (F (n + 1)).2 ≤
          sAngle (F 0).1 (F 0).2 (F n).1 (F n).2 +
            sAngle (F n).1 (F n).2 (F (n + 1)).1 (F (n + 1)).2 :=
            sAngle_triangle _ _ _ _ _ _
        _ ≤ _ := by linarith

/-! ## The stretched latitude `ψ` and its calculus -/

/-- The Mercator stretched latitude `ψ(φ) = ln tan(φ/2 + π/4)` used by the
rhumb-line code. -/
def psi (φ : ℝ) : ℝ := Real.log (Real.tan (φ / 2 + Real.pi / 4))

lemma tan_half_shift_pos {φ : ℝ} (h1 : -(Real.pi / 2) < φ) (h2 : φ < Real.pi / 2) :
    0 < Real.tan (φ / 2 + Real.pi / 4) :=
  Real.tan_pos_of_pos_of_lt_pi_div_two (by linarith) (by linarith)

lemma psi_neg (φ : ℝ) : psi (-φ) = -psi φ := by
  unfold psi
  rw [show -φ / 2 + Real.pi / 4 = Real.pi / 2 - (φ / 2 + Real.pi / 4) by ring,
    Real.tan_pi_div_two_sub, Real.log_inv]

lemma psi_hasDerivAt {φ : ℝ} (h1 : -(Real.pi / 2) < φ) (h2 : φ < Real.pi / 2) :
    HasDerivAt psi (1 / Real.cos φ) φ := by
  have hpi := Real.pi_pos
  have hu1 : (0 : ℝ) < φ / 2 + Real.pi / 4 := by linarith
  have hu2 : φ / 2 + Real.pi / 4 < Real.pi / 2 := by linarith
  have hcospos : 0 < Real.cos (φ / 2 + Real.pi / 4) :=
    Real.cos_pos_of_mem_Ioo ⟨by linarith, hu2⟩
  have htan : 0 < Real.tan (φ / 2 + Real.pi / 4) := tan_half_shift_pos h1 h2
  have hsin : 0 < Real.sin (φ / 2 + Real.pi / 4) :=
    Real.sin_pos_of_pos_of_lt_pi hu1 (by linarith)
  have hinner : HasDerivAt (fun x : ℝ => x / 2 + Real.pi / 4) (1 / 2) φ := by
    simpa using ((hasDerivAt_id φ).div_const 2).add_const (Real.pi / 4)
  have htand := (Real.hasDerivAt_tan (ne_of_gt hcospos)).comp φ hinner
  have hlogd := (Real.hasDerivAt_log (ne_of_gt htan)).comp φ htand
  have hkey : Real.cos φ = 2 * Real.sin (φ / 2 + Real.pi / 4) * Real.cos (φ / 2 + Real.pi / 4) := by
    have hs := Real.sin_two_mul (φ / 2 + Real.pi / 4)
    rw [show 2 * (φ / 2 + Real.pi / 4) = φ + Real.pi / 2 by ring,
      Real.sin_add_pi_div_two] at hs
    linarith
  have hval : (Real.tan (φ / 2 + Real.pi / 4))⁻¹ * (1 / Real.cos (φ / 2 + Real.pi / 4) ^ 2 * (1 / 2)) =
      1 / Real.cos φ := by
    set s := Real.sin (φ / 2 + Real.pi / 4) with hs_def
    set c := Real.cos (φ / 2 + Real.pi / 4) with hc_def
    have hsne : s ≠ 0 := ne_of_gt hsin
    have hcne : c ≠ 0 := ne_of_gt hcospos
    rw [Real.tan_eq_sin_div_cos, hkey]
    rw [← hs_def, ← hc_def]
    field_simp
    ring
  rw [← hval]
  exact hlogd

/-- Mean value theorem for `ψ` on an interval inside `(-π/2, π/2)`. -/
lemma psi_slope {a b : ℝ} (hab : a < b) (ha : -(Real.pi / 2) < a) (hb : b < Real.pi / 2) :
    ∃ ξ, ξ ∈ Set.Ioo a b ∧ psi b - psi a = (b - a) * (1 / Real.cos ξ) := by
  have hcont : ContinuousOn psi (Set.Icc a b) := by
    intro x hx
    exact ((psi_hasDerivAt (lt_of_lt_of_le ha hx.1)
      (lt_of_le_of_lt hx.2 hb)).continuousAt).continuousWithinAt
  have hderiv : ∀ x ∈ Set.Ioo a b, HasDerivAt psi (1 / Real.cos x) x := fun x hx =>
    psi_hasDerivAt (lt_trans ha hx.1) (lt_trans hx.2 hb)
  obtain ⟨ξ, hξ, heq⟩ :=
    exists_hasDerivAt_eq_slope psi (fun x => 1 / Real.cos x) hab hcont hderiv
  refine ⟨ξ, hξ, ?_⟩
  rw [heq]
  have hne : b - a ≠ 0 := ne_of_gt (sub_pos.2 hab)
  field_simp

/-- On any interval inside `(-π/2, π/2)`, `cos` is at least the smaller of
its endpoint values. -/
lemma cos_ge_min_endpoints {a b x : ℝ} (hax : a ≤ x) (hxb : x ≤ b)
    (ha : -(Real.pi / 2) ≤ a) (hb : b ≤ Real.pi / 2) :
    min (Real.cos a) (Real.cos b) ≤ Real.cos x := by
  have hpi := Real.pi_pos
  rcases le_total x 0 with hx0 | hx0
  · refine le_trans (min_le_left _ _) ?_
    rw [← Real.cos_neg x, ← Real.cos_neg a]
    exact Real.cos_le_cos_of_nonneg_of_le_pi (by linarith) (by linarith) (by linarith)
  · refine le_trans (min_le_right _ _) ?_
    exact Real.cos_le_cos_of_nonneg_of_le_pi hx0 (by linarith) hxb

/-- `cos` is 1-Lipschitz. -/
lemma cos_lipschitz (x y : ℝ) : |Real.cos x - Real.cos y| ≤ |x - y| := by
  rw [Real.cos_sub_cos]
  rw [abs_mul, abs_mul]
  have h1 : |(-2 : ℝ)| = 2 := by norm_num
  rw [h1]
  have h2 : |Real.sin ((x + y) / 2)| ≤ 1 := Real.abs_sin_le_one _
  have h3 : |Real.sin ((x - y) / 2)| ≤ |(x - y) / 2| := Real.abs_sin_le_abs
  have h4 : |(x - y) / 2| = |x - y| / 2 := by rw [abs_div]; norm_num
  nlinarith [abs_nonneg (Real.sin ((x - y) / 2)), abs_nonneg (x - y)]

/-! ## Elementary arcsin and haversine estimates -/

lemma arcsin_le_poly {s : ℝ} (h0 : 0 ≤ s) (h1 : s ≤ 1 / 2) :
    Real.arcsin s ≤ s + s ^ 3 := by
  rcases eq_or_lt_of_le h0 with h | h
  · rw [← h]
    simp
  · have hx : 0 < s + s ^ 3 := by positivity
    have hs2 : s ^ 2 ≤ 1 / 4 := by nlinarith
    have hx1 : s + s ^ 3 ≤ 1 := by nlinarith
    have hsin := Real.sin_gt_sub_cube hx hx1
    have h5 : s ^ 5 ≤ s ^ 3 * (1 / 4) := by
      nlinarith [mul_nonneg (by linarith : (0 : ℝ) ≤ 1 / 4 - s ^ 2) (pow_nonneg h0 3)]
    have hs4 : s ^ 4 ≤ 1 / 16 := by nlinarith [sq_nonneg s]
    have h7 : s ^ 7 ≤ s ^ 3 * (1 / 16) := by
      nlinarith [mul_nonneg (by linarith : (0 : ℝ) ≤ 1 / 16 - s ^ 4) (pow_nonneg h0 3)]
    have hs6 : s ^ 6 ≤ 1 / 64 := by nlinarith [sq_nonneg s, hs4]
    have h9 : s ^ 9 ≤ s ^ 3 * (1 / 64) := by
      nlinarith [mul_nonneg (by linarith : (0 : ℝ) ≤ 1 / 64 - s ^ 6) (pow_nonneg h0 3)]
    have hcube : (s + s ^ 3) ^ 3 ≤ 4 * s ^ 3 := by nlinarith [pow_nonneg h0 3]
    have hkey : s ≤ Real.sin (s + s ^ 3) := by nlinarith
    have hone : (1 : ℝ) ≤ Real.pi / 2 := by linarith [Real.pi_gt_three]
    calc Real.arcsin s ≤ Real.arcsin (Real.sin (s + s ^ 3)) := Real.monotone_arcsin hkey
      _ = s + s ^ 3 := Real.arcsin_sin (by linarith) (by linarith)

lemma arcsin_mul_sin {k t : ℝ} (hk0 : 0 ≤ k) (hk1 : k ≤ 1)
    (ht0 : 0 ≤ t) (ht2 : t ≤ Real.pi / 2) :
    Real.arcsin (k * Real.sin t) ≤ k * t := by
  have hpi := Real.pi_pos
  have hconc := strictConcaveOn_sin_Icc.concaveOn
  have hmem1 : t ∈ Set.Icc (0 : ℝ) Real.pi := ⟨ht0, by linarith⟩
  have hmem2 : (0 : ℝ) ∈ Set.Icc (0 : ℝ) Real.pi := ⟨le_refl 0, by linarith⟩
  have hcomb := hconc.2 hmem1 hmem2 hk0 (by linarith : (0 : ℝ) ≤ 1 - k) (by ring)
  have hsin_le : k * Real.sin t ≤ Real.sin (k * t) := by
    simpa using hcomb
  have hkt0 : 0 ≤ k * t := mul_nonneg hk0 ht0
  have hkt2 : k * t ≤ Real.pi / 2 := by nlinarith
  calc Real.arcsin (k * Real.sin t) ≤ Real.arcsin (Real.sin (k * t)) :=
        Real.monotone_arcsin hsin_le
    _ = k * t := Real.arcsin_sin (by linarith) hkt2

lemma abs_sin_eq_sin_abs {x : ℝ} (h : |x| ≤ Real.pi) : |Real.sin x| = Real.sin |x| := by
  rcases le_total 0 x with hx | hx
  · rw [abs_of_nonneg hx,
      abs_of_nonneg (Real.sin_nonneg_of_nonneg_of_le_pi hx (by rwa [abs_of_nonneg hx] at h))]
  · have habs : |x| = -x := abs_of_nonpos hx
    have hsx : Real.sin x ≤ 0 :=
      Real.sin_nonpos_of_nonnpos_of_neg_pi_le hx (by rw [habs] at h; linarith)
    rw [habs, Real.sin_neg, abs_of_nonpos hsx]

/-- The central angle along a meridian is the latitude difference. -/
lemma sAngle_meridian {φ1 φ2 : ℝ} (lam : ℝ) (h : |φ2 - φ1| ≤ Real.pi)
    (hc : 0 ≤ Real.cos φ1 * Real.cos φ2) :
    sAngle φ1 lam φ2 lam = |φ2 - φ1| := by
  have hpi := Real.pi_pos
  rw [sAngle_as_arcsin _ _ _ _ hc]
  unfold hav
  rw [sub_self]
  norm_num
  rw [Real.sqrt_sq_eq_abs]
  have habs2 : |(φ2 - φ1) / 2| = |φ2 - φ1| / 2 := by rw [abs_div]; norm_num
  rw [abs_sin_eq_sin_abs (by rw [habs2]; linarith), habs2,
    Real.arcsin_sin (by linarith [abs_nonneg (φ2 - φ1)]) (by linarith)]
  ring

/-- The central angle along a parallel of latitude. -/
lemma sAngle_parallel {φ : ℝ} (lam1 lam2 : ℝ) (hc : 0 ≤ Real.cos φ) :
    sAngle φ lam1 φ lam2 =
      2 * Real.arcsin (Real.cos φ * |Real.sin ((lam2 - lam1) / 2)|) := by
  rw [sAngle_as_arcsin _ _ _ _ (mul_nonneg hc hc)]
  unfold hav
  rw [show Real.sin ((φ - φ) / 2) ^ 2 +
        Real.cos φ * Real.cos φ * Real.sin ((lam2 - lam1) / 2) ^ 2 =
      (Real.cos φ * |Real.sin ((lam2 - lam1) / 2)|) ^ 2 by
    rw [mul_pow, sq_abs, show ((φ - φ) / 2 : ℝ) = 0 by ring, Real.sin_zero]; ring]
  rw [Real.sqrt_sq (by positivity)]

lemma hav_lon_add_two_pi (φ1 l1 φ2 l2 : ℝ) :
    hav φ1 l1 φ2 (l2 + 2 * Real.pi) = hav φ1 l1 φ2 l2 := by
  unfold hav
  rw [show (l2 + 2 * Real.pi - l1) / 2 = (l2 - l1) / 2 + Real.pi by ring, Real.sin_add_pi]
  ring

lemma hav_lon_sub_two_pi (φ1 l1 φ2 l2 : ℝ) :
    hav φ1 l1 φ2 (l2 - 2 * Real.pi) = hav φ1 l1 φ2 l2 := by
  unfold hav
  rw [show (l2 - 2 * Real.pi - l1) / 2 = (l2 - l1) / 2 - Real.pi by ring, Real.sin_sub_pi]
  ring

lemma hav_lon_rel (φ1 l1 φ2 l2 : ℝ) : hav φ1 l1 φ2 l2 = hav φ1 0 φ2 (l2 - l1) := by
  unfold hav
  rw [sub_zero]

lemma hav_lat_reflect (φ1 l1 φ2 l2 : ℝ) : hav (-φ1) l1 (-φ2) l2 = hav φ1 l1 φ2 l2 := by
  unfold hav
  rw [show (-φ2 - -φ1) / 2 = -((φ2 - φ1) / 2) by ring, Real.sin_neg, Real.cos_neg, Real.cos_neg]
  ring

/-- `sAngle` through the haversine value (no hypotheses). -/
lemma sAngle_eq_arccos_hav (φ1 l1 φ2 l2 : ℝ) :
    sAngle φ1 l1 φ2 l2 = Real.arccos (1 - 2 * hav φ1 l1 φ2 l2) := by
  unfold sAngle
  rw [dot3_sph]

/-! ## The rhumb-line core inequality -/

/-- One segment of the subdivided rhumb line: the central angle across the
segment is at most the segment's rhumb-length bound `c` plus a cubic
correction `c³/4`. -/
lemma seg_est (a b lamA lamB m T c : ℝ) (hab : a < b)
    (haI : -(Real.pi / 2) < a) (hbI : b < Real.pi / 2)
    (hm : 0 < m) (hmin : ∀ x, a ≤ x → x ≤ b → m ≤ Real.cos x)
    (hlam : lamB - lamA = T * (psi b - psi a))
    (hceq : c = (b - a) * Real.sqrt (1 + T ^ 2) * (1 + (b - a) / m))
    (hc1 : c ≤ 1) :
    sAngle a lamA b lamB ≤ c + c ^ 3 / 4 := by
  have hba : 0 < b - a := sub_pos.2 hab
  have hδ0 : 0 ≤ (b - a) / m := div_nonneg (le_of_lt hba) (le_of_lt hm)
  have hcosa : 0 < Real.cos a := lt_of_lt_of_le hm (hmin a le_rfl (le_of_lt hab))
  have hcosb : 0 < Real.cos b := lt_of_lt_of_le hm (hmin b (le_of_lt hab) le_rfl)
  have hcc : 0 ≤ Real.cos a * Real.cos b := le_of_lt (mul_pos hcosa hcosb)
  have hc0 : 0 ≤ c := by
    rw [hceq]
    apply mul_nonneg (mul_nonneg (le_of_lt hba) (Real.sqrt_nonneg _))
    linarith
  obtain ⟨ξ, hξ, hslope⟩ := psi_slope hab haI hbI
  have hmξ : m ≤ Real.cos ξ := hmin ξ (le_of_lt hξ.1) (le_of_lt hξ.2)
  have hcosξ : 0 < Real.cos ξ := lt_of_lt_of_le hm hmξ
  have hclose : ∀ x, a ≤ x → x ≤ b → Real.cos x ≤ Real.cos ξ * (1 + (b - a) / m) := by
    intro x hax hxb
    have hl := cos_lipschitz x ξ
    have h2 : |x - ξ| ≤ b - a := by
      rw [abs_le]
      constructor <;> [linarith [hξ.2]; linarith [hξ.1]]
    have h3 : Real.cos x ≤ Real.cos ξ + (b - a) :=
      by linarith [le_abs_self (Real.cos x - Real.cos ξ), hl, h2]
    have h5 : m * ((b - a) / m) = b - a := by field_simp
    have h4 : (b - a) ≤ Real.cos ξ * ((b - a) / m) := by
      calc (b - a) = m * ((b - a) / m) := h5.symm
        _ ≤ Real.cos ξ * ((b - a) / m) := mul_le_mul_of_nonneg_right hmξ hδ0
    nlinarith [h3, h4]
  have hca := hclose a le_rfl (le_of_lt hab)
  have hcb := hclose b (le_of_lt hab) le_rfl
  -- square of the per-segment bound
  have hcsq : c ^ 2 = (b - a) ^ 2 * (1 + T ^ 2) * (1 + (b - a) / m) ^ 2 := by
    rw [hceq, mul_pow, mul_pow, Real.sq_sqrt (by positivity)]
  -- bound the haversine value of the segment
  have hlam2 : (lamB - lamA) ^ 2 = T ^ 2 * ((b - a) ^ 2 * (1 / Real.cos ξ) ^ 2) := by
    rw [hlam, hslope]; ring
  have hprod : Real.cos a * Real.cos b * (1 / Real.cos ξ) ^ 2 ≤ (1 + (b - a) / m) ^ 2 := by
    have h1 : Real.cos a * Real.cos b ≤
        Real.cos ξ ^ 2 * (1 + (b - a) / m) ^ 2 := by
      nlinarith [hca, hcb, hcosa, hcosb, mul_pos hcosξ (by linarith : (0:ℝ) < 1 + (b - a) / m)]
    have h2 : (1 / Real.cos ξ) ^ 2 * Real.cos ξ ^ 2 = 1 := by
      field_simp
    have h3 : Real.cos a * Real.cos b * (1 / Real.cos ξ) ^ 2 ≤
        Real.cos ξ ^ 2 * (1 + (b - a) / m) ^ 2 * (1 / Real.cos ξ) ^ 2 :=
      mul_le_mul_of_nonneg_right h1 (sq_nonneg _)
    have h4 : Real.cos ξ ^ 2 * (1 + (b - a) / m) ^ 2 * (1 / Real.cos ξ) ^ 2 =
        (1 + (b - a) / m) ^ 2 := by
      rw [show Real.cos ξ ^ 2 * (1 + (b - a) / m) ^ 2 * (1 / Real.cos ξ) ^ 2 =
        (1 / Real.cos ξ) ^ 2 * Real.cos ξ ^ 2 * (1 + (b - a) / m) ^ 2 by ring, h2, one_mul]
    linarith [h3, h4]
  have hhav : hav a lamA b lamB ≤ c ^ 2 / 4 := by
    unfold hav
    have hs1 : Real.sin ((b - a) / 2) ^ 2 ≤ ((b - a) / 2) ^ 2 := Real.sin_sq_le_sq
    have hs2 : Real.sin ((lamB - lamA) / 2) ^ 2 ≤ ((lamB - lamA) / 2) ^ 2 :=
      Real.sin_sq_le_sq
    have hterm2 : Real.cos a * Real.cos b * Real.sin ((lamB - lamA) / 2) ^ 2 ≤
        T ^ 2 * (b - a) ^ 2 * (1 + (b - a) / m) ^ 2 / 4 := by
      have ha1 : Real.cos a * Real.cos b * Real.sin ((lamB - lamA) / 2) ^ 2 ≤
          Real.cos a * Real.cos b * ((lamB - lamA) / 2) ^ 2 :=
        mul_le_mul_of_nonneg_left hs2 hcc
      have ha2 : Real.cos a * Real.cos b * ((lamB - lamA) / 2) ^ 2 =
          Real.cos a * Real.cos b * (1 / Real.cos ξ) ^ 2 *
            (T ^ 2 * (b - a) ^ 2) / 4 := by
        rw [show ((lamB - lamA) / 2) ^ 2 = (lamB - lamA) ^ 2 / 4 by ring, hlam2]; ring
      have ha3 : Real.cos a * Real.cos b * (1 / Real.cos ξ) ^ 2 *
            (T ^ 2 * (b - a) ^ 2) / 4 ≤
          (1 + (b - a) / m) ^ 2 * (T ^ 2 * (b - a) ^ 2) / 4 := by
        have hT2 : 0 ≤ T ^ 2 * (b - a) ^ 2 := by positivity
        nlinarith [mul_le_mul_of_nonneg_right hprod hT2]
      calc Real.cos a * Real.cos b * Real.sin ((lamB - lamA) / 2) ^ 2 ≤
            Real.cos a * Real.cos b * ((lamB - lamA) / 2) ^ 2 := ha1
        _ = Real.cos a * Real.cos b * (1 / Real.cos ξ) ^ 2 * (T ^ 2 * (b - a) ^ 2) / 4 := ha2
        _ ≤ (1 + (b - a) / m) ^ 2 * (T ^ 2 * (b - a) ^ 2) / 4 := ha3
        _ = T ^ 2 * (b - a) ^ 2 * (1 + (b - a) / m) ^ 2 / 4 := by ring
    have hfinal : ((b - a) / 2) ^ 2 + T ^ 2 * (b - a) ^ 2 * (1 + (b - a) / m) ^ 2 / 4 ≤
        c ^ 2 / 4 := by
      rw [hcsq]
      nlinarith [mul_nonneg (sq_nonneg (b - a)) hδ0,
        mul_nonneg (sq_nonneg (b - a)) (mul_nonneg hδ0 hδ0)]
    linarith [hs1, hterm2, hfinal]
  -- conclude through `2·arcsin √hav`
  have hhav0 : 0 ≤ hav a lamA b lamB := hav_nonneg hcc
  have hsq : Real.sqrt (hav a lamA b lamB) ≤ c / 2 := by
    have h1 : hav a lamA b lamB ≤ (c / 2) ^ 2 := by nlinarith [hhav]
    calc Real.sqrt (hav a lamA b lamB) ≤ Real.sqrt ((c / 2) ^ 2) := Real.sqrt_le_sqrt h1
      _ = c / 2 := Real.sqrt_sq (by linarith)
  have hs_half : Real.sqrt (hav a lamA b lamB) ≤ 1 / 2 := le_trans hsq (by linarith)
  rw [sAngle_as_arcsin _ _ _ _ hcc]
  have harc := arcsin_le_poly (Real.sqrt_nonneg _) hs_half
  have hcube : Real.sqrt (hav a lamA b lamB) ^ 3 ≤ (c / 2) ^ 3 :=
    pow_le_pow_left (Real.sqrt_nonneg _) hsq 3
  nlinarith [harc, hsq, hcube]

/-- Subdividing the rhumb line into `n` segments: the central angle is at
most `L` plus an error that vanishes as `n` grows. -/
lemma rhumb_subdiv {φ1 φ2 lamw m T L : ℝ}
    (h1l : -(Real.pi / 2) < φ1) (h1r : φ1 < Real.pi / 2)
    (h2l : -(Real.pi / 2) < φ2) (h2r : φ2 < Real.pi / 2) (hlt : φ1 < φ2)
    (hme : m = min (Real.cos φ1) (Real.cos φ2))
    (hTe : T = lamw / (psi φ2 - psi φ1))
    (hLe : L = (φ2 - φ1) * Real.sqrt (1 + T ^ 2))
    (n : ℕ) (hn2L : 2 * L ≤ n) (hnδ : (φ2 - φ1) / m ≤ n) (hn1 : (1 : ℝ) ≤ n) :
    sAngle φ1 0 φ2 lamw ≤ L + (L * ((φ2 - φ1) / m) + 2 * L ^ 3) * (1 / n) := by
  have hΔφ : 0 < φ2 - φ1 := sub_pos.2 hlt
  have hc1 : 0 < Real.cos φ1 := Real.cos_pos_of_mem_Ioo ⟨h1l, h1r⟩
  have hc2 : 0 < Real.cos φ2 := Real.cos_pos_of_mem_Ioo ⟨h2l, h2r⟩
  have hm : 0 < m := hme ▸ lt_min hc1 hc2
  obtain ⟨ξ0, hξ0, hs0⟩ := psi_slope hlt h1l h2r
  have hcosξ0 : 0 < Real.cos ξ0 :=
    Real.cos_pos_of_mem_Ioo ⟨by linarith [hξ0.1], by linarith [hξ0.2]⟩
  have hΔψ : 0 < psi φ2 - psi φ1 := by rw [hs0]; positivity
  have hsq1T : 0 < Real.sqrt (1 + T ^ 2) := Real.sqrt_pos.2 (by positivity)
  have hLpos : 0 < L := hLe ▸ mul_pos hΔφ hsq1T
  have hn0 : (0 : ℝ) < n := by linarith
  have hmin' : ∀ x, φ1 ≤ x → x ≤ φ2 → m ≤ Real.cos x := fun x hx1 hx2 =>
    hme ▸ cos_ge_min_endpoints hx1 hx2 (le_of_lt h1l) (le_of_lt h2r)
  set P : ℕ → ℝ × ℝ := fun i =>
    (φ1 + (φ2 - φ1) * i / n, T * (psi (φ1 + (φ2 - φ1) * i / n) - psi φ1)) with hP_def
  clear_value P
  have hP0 : P 0 = (φ1, 0) := by
    simp [hP_def]
  have hPn : P n = (φ2, lamw) := by
    have hfrac : (φ2 - φ1) * (n : ℝ) / n = φ2 - φ1 := by field_simp
    simp only [hP_def, hfrac, show φ1 + (φ2 - φ1) = φ2 by ring]
    rw [hTe, div_mul_cancel₀ _ (ne_of_gt hΔψ)]
  set E := L / n * (1 + (φ2 - φ1) / (n * m)) with hE_def
  clear_value E
  have hδn0 : 0 ≤ (φ2 - φ1) / (n * m) :=
    div_nonneg (le_of_lt hΔφ) (le_of_lt (mul_pos hn0 hm))
  have hδn1 : (φ2 - φ1) / (n * m) ≤ 1 := by
    rw [div_le_one (mul_pos hn0 hm)]
    calc φ2 - φ1 = ((φ2 - φ1) / m) * m := by field_simp
      _ ≤ n * m := mul_le_mul_of_nonneg_right hnδ (le_of_lt hm)
  have hLn0 : 0 ≤ L / n := div_nonneg (le_of_lt hLpos) (le_of_lt hn0)
  have hE0 : 0 ≤ E := by rw [hE_def]; apply mul_nonneg hLn0; linarith
  have hEle : E ≤ 2 * (L / n) := by
    rw [hE_def]
    nlinarith [hδn1, hLn0]
  have hE1 : E ≤ 1 := by
    calc E ≤ 2 * (L / n) := hEle
      _ = 2 * L / n := by ring
      _ ≤ 1 := by rw [div_le_one hn0]; exact hn2L
  have hseg : ∀ i, i < n →
      sAngle (P i).1 (P i).2 (P (i + 1)).1 (P (i + 1)).2 ≤ E + E ^ 3 / 4 := by
    intro i hi
    have hi1n : ((i : ℝ) + 1) ≤ n := by exact_mod_cast Nat.succ_le_of_lt hi
    have hi0 : (0 : ℝ) ≤ i := Nat.cast_nonneg i
    simp only [hP_def]
    push_cast
    set A := φ1 + (φ2 - φ1) * (i : ℝ) / n with hA_def
    set B := φ1 + (φ2 - φ1) * ((i : ℝ) + 1) / n with hB_def
    clear_value A B
    have hstep : B - A = (φ2 - φ1) / n := by
      rw [hA_def, hB_def]
      field_simp
      ring
    have hAB : A < B := by
      have hpos : 0 < (φ2 - φ1) / (n : ℝ) := div_pos hΔφ hn0
      linarith [hstep, hpos]
    have hφ1A : φ1 ≤ A := by
      rw [hA_def]
      have : 0 ≤ (φ2 - φ1) * (i : ℝ) / n :=
        div_nonneg (mul_nonneg (le_of_lt hΔφ) hi0) (le_of_lt hn0)
      linarith
    have hBφ2 : B ≤ φ2 := by
      rw [hB_def]
      have hfr : (φ2 - φ1) * ((i : ℝ) + 1) / n ≤ φ2 - φ1 := by
        rw [div_le_iff hn0]
        nlinarith [hΔφ, hi1n]
      linarith
    have hEeq : E = (B - A) * Real.sqrt (1 + T ^ 2) * (1 + (B - A) / m) := by
      have hnne : (n : ℝ) ≠ 0 := ne_of_gt hn0
      have hmne : m ≠ 0 := ne_of_gt hm
      rw [hstep, hE_def, hLe]
      field_simp
    exact seg_est A B _ _ m T E hAB (by linarith) (by linarith)
      hm (fun x hx1 hx2 => hmin' x (le_trans hφ1A hx1) (le_trans hx2 hBφ2))
      (by ring) hEeq hE1
  have hchain := sAngle_chain P n
  rw [hP0, hPn] at hchain
  have hsum : ∑ i ∈ Finset.range n,
      sAngle (P i).1 (P i).2 (P (i + 1)).1 (P (i + 1)).2 ≤ n * (E + E ^ 3 / 4) := by
    calc ∑ i ∈ Finset.range n, sAngle (P i).1 (P i).2 (P (i + 1)).1 (P (i + 1)).2 ≤
        ∑ _i ∈ Finset.range n, (E + E ^ 3 / 4) :=
          Finset.sum_le_sum fun i hi => hseg i (Finset.mem_range.1 hi)
      _ = n * (E + E ^ 3 / 4) := by
          rw [Finset.sum_const, Finset.card_range, nsmul_eq_mul]
  have hnE : (n : ℝ) * E = L + L * ((φ2 - φ1) / m) * (1 / n) := by
    rw [hE_def]
    field_simp
    ring
  have hcube : (n : ℝ) * (E ^ 3 / 4) ≤ 2 * L ^ 3 * (1 / n) := by
    have h1 : E ^ 3 ≤ (2 * (L / n)) ^ 3 := pow_le_pow_left hE0 hEle 3
    have h2 : (n : ℝ) * (E ^ 3 / 4) ≤ n * ((2 * (L / n)) ^ 3 / 4) :=
      mul_le_mul_of_nonneg_left (by linarith) (le_of_lt hn0)
    have h3 : (n : ℝ) * ((2 * (L / n)) ^ 3 / 4) = 2 * L ^ 3 / n ^ 2 := by
      field_simp
      ring
    have h4 : 2 * L ^ 3 / n ^ 2 ≤ 2 * L ^ 3 * (1 / n) := by
      rw [show 2 * L ^ 3 * (1 / n) = 2 * L ^ 3 / n by ring]
      rw [div_le_div_iff (by positivity) hn0]
      have hL3 : 0 ≤ L ^ 3 := pow_nonneg (le_of_lt hLpos) 3
      nlinarith [mul_nonneg (mul_nonneg hL3 (le_of_lt hn0))
        (by linarith : (0 : ℝ) ≤ (n : ℝ) - 1)]
    linarith
  calc sAngle φ1 0 φ2 lamw ≤ (n : ℝ) * (E + E ^ 3 / 4) := le_trans hchain hsum
    _ = (n : ℝ) * E + (n : ℝ) * (E ^ 3 / 4) := by ring
    _ ≤ L + L * ((φ2 - φ1) / m) * (1 / n) + 2 * L ^ 3 * (1 / n) := by linarith [hnE.le, hcube]
    _ = L + (L * ((φ2 - φ1) / m) + 2 * L ^ 3) * (1 / n) := by ring

/-- Core inequality: for interior latitudes with `φ1 < φ2`, the great-circle
angle never exceeds the rhumb-line length `√(Δφ² + (Δφ/Δψ)²·Δλ²)`. -/
lemma rhumb_core {φ1 φ2 lamw : ℝ}
    (h1l : -(Real.pi / 2) < φ1) (h1r : φ1 < Real.pi / 2)
    (h2l : -(Real.pi / 2) < φ2) (h2r : φ2 < Real.pi / 2) (hlt : φ1 < φ2) :
    sAngle φ1 0 φ2 lamw ≤
      Real.sqrt ((φ2 - φ1) ^ 2 + ((φ2 - φ1) / (psi φ2 - psi φ1)) ^ 2 * lamw ^ 2) := by
  have hΔφ : 0 < φ2 - φ1 := sub_pos.2 hlt
  have hc1 : 0 < Real.cos φ1 := Real.cos_pos_of_mem_Ioo ⟨h1l, h1r⟩
  have hc2 : 0 < Real.cos φ2 := Real.cos_pos_of_mem_Ioo ⟨h2l, h2r⟩
  obtain ⟨ξ0, hξ0, hs0⟩ := psi_slope hlt h1l h2r
  have hcosξ0 : 0 < Real.cos ξ0 :=
    Real.cos_pos_of_mem_Ioo ⟨by linarith [hξ0.1], by linarith [hξ0.2]⟩
  have hΔψ : 0 < psi φ2 - psi φ1 := by rw [hs0]; positivity
  have hm : 0 < min (Real.cos φ1) (Real.cos φ2) := lt_min hc1 hc2
  have hsq1T : 0 < Real.sqrt (1 + (lamw / (psi φ2 - psi φ1)) ^ 2) :=
    Real.sqrt_pos.2 (by positivity)
  have hLgoal : Real.sqrt ((φ2 - φ1) ^ 2 + ((φ2 - φ1) / (psi φ2 - psi φ1)) ^ 2 * lamw ^ 2) =
      (φ2 - φ1) * Real.sqrt (1 + (lamw / (psi φ2 - psi φ1)) ^ 2) := by
    rw [show (φ2 - φ1) ^ 2 + ((φ2 - φ1) / (psi φ2 - psi φ1)) ^ 2 * lamw ^ 2 =
        (φ2 - φ1) ^ 2 * (1 + (lamw / (psi φ2 - psi φ1)) ^ 2) by
      field_simp
      ring]
    rw [Real.sqrt_mul (sq_nonneg _), Real.sqrt_sq (le_of_lt hΔφ)]
  rw [hLgoal]
  obtain ⟨L, hL_def⟩ : ∃ L : ℝ,
      L = (φ2 - φ1) * Real.sqrt (1 + (lamw / (psi φ2 - psi φ1)) ^ 2) := ⟨_, rfl⟩
  rw [← hL_def]
  have hLpos : 0 < L := hL_def ▸ mul_pos hΔφ hsq1T
  by_contra hcon
  push_neg at hcon
  obtain ⟨ε, hε_def⟩ : ∃ ε : ℝ, ε = (sAngle φ1 0 φ2 lamw - L) / 2 := ⟨_, rfl⟩
  have hε : 0 < ε := by rw [hε_def]; linarith
  obtain ⟨C, hC_def⟩ : ∃ C : ℝ,
      C = L * ((φ2 - φ1) / min (Real.cos φ1) (Real.cos φ2)) + 2 * L ^ 3 := ⟨_, rfl⟩
  have hC0 : 0 ≤ C := by
    rw [hC_def]
    have h1 : 0 ≤ (φ2 - φ1) / min (Real.cos φ1) (Real.cos φ2) :=
      div_nonneg (le_of_lt hΔφ) (le_of_lt hm)
    have h2 : 0 ≤ L ^ 3 := pow_nonneg (le_of_lt hLpos) 3
    nlinarith [mul_nonneg (le_of_lt hLpos) h1]
  obtain ⟨n, hn⟩ := exists_nat_gt
    (max (max (2 * L) ((φ2 - φ1) / min (Real.cos φ1) (Real.cos φ2))) (max 1 (C / ε)))
  have hn2L : 2 * L ≤ (n : ℝ) :=
    le_of_lt (lt_of_le_of_lt (le_trans (le_max_left _ _) (le_max_left _ _)) hn)
  have hnδ : (φ2 - φ1) / min (Real.cos φ1) (Real.cos φ2) ≤ (n : ℝ) :=
    le_of_lt (lt_of_le_of_lt (le_trans (le_max_right _ _) (le_max_left _ _)) hn)
  have hn1 : (1 : ℝ) ≤ (n : ℝ) :=
    le_of_lt (lt_of_le_of_lt (le_trans (le_max_left _ _) (le_max_right _ _)) hn)
  have hnCε : C / ε < (n : ℝ) :=
    lt_of_le_of_lt (le_trans (le_max_right _ _) (le_max_right _ _)) hn
  have hn0 : (0 : ℝ) < n := by linarith
  have hkey := rhumb_subdiv h1l h1r h2l h2r hlt rfl rfl hL_def n hn2L hnδ hn1
  rw [← hC_def] at hkey
  have hCn : C * (1 / (n : ℝ)) < ε := by
    have hC' : C < (n : ℝ) * ε := by
      have := (div_lt_iff hε).1 hnCε
      linarith
    rw [mul_one_div, div_lt_iff hn0]
    linarith
  rw [hε_def] at hCn
  linarith [hkey, hCn, hcon]

/-! ## Reading off the pieces of the loxodromic code -/

/-- The antimeridian-wrapped `deltaLon` of `calculateLoxodromicDistance`. -/
def loxDeltaLon (p1 p2 : Coordinates) : ℝ :=
  let d := deg2rad (p2.lon - p1.lon)
  if Real.pi < |d| then (if 0 < d then -(2 * Real.pi - d) else 2 * Real.pi + d) else d

/-- The `deltaPsi` of `calculateLoxodromicDistance`. -/
def loxDeltaPsi (p1 p2 : Coordinates) : ℝ :=
  Real.log (Real.tan (deg2rad p2.lat / 2 + Real.pi / 4) /
    Real.tan (deg2rad p1.lat / 2 + Real.pi / 4))

/-- The `q` of `calculateLoxodromicDistance`. -/
def loxQ (p1 p2 : Coordinates) : ℝ :=
  if 10e-12 < |loxDeltaPsi p1 p2| then
    (deg2rad p2.lat - deg2rad p1.lat) / loxDeltaPsi p1 p2
  else Real.cos (deg2rad p1.lat)

lemma calculateLoxodromicDistance_eq (p1 p2 : Coordinates) :
    calculateLoxodromicDistance p1 p2 =
      Real.sqrt ((deg2rad p2.lat - deg2rad p1.lat) * (deg2rad p2.lat - deg2rad p1.lat) +
        loxQ p1 p2 * loxQ p1 p2 * loxDeltaLon p1 p2 * loxDeltaLon p1 p2) * 6371 := by
  unfold calculateLoxodromicDistance loxQ loxDeltaPsi loxDeltaLon
  dsimp only

lemma deg2rad_ninety : deg2rad 90 = Real.pi / 2 := by
  unfold deg2rad; ring

lemma deg2rad_neg_ninety : deg2rad (-90) = -(Real.pi / 2) := by
  unfold deg2rad; ring

lemma tan_shift_pole_pos : Real.tan (Real.pi / 2 / 2 + Real.pi / 4) = 0 := by
  rw [show Real.pi / 2 / 2 + Real.pi / 4 = Real.pi / 2 by ring, Real.tan_pi_div_two]

lemma tan_shift_pole_neg : Real.tan (-(Real.pi / 2) / 2 + Real.pi / 4) = 0 := by
  rw [show -(Real.pi / 2) / 2 + Real.pi / 4 = 0 by ring, Real.tan_zero]

/-- With a pole as the first endpoint, the code's `deltaPsi` is the junk
value `log 0 = 0` of the real-number model. -/
lemma loxDeltaPsi_pole_fst {p1 p2 : Coordinates}
    (h : p1.lat = 90 ∨ p1.lat = -90) : loxDeltaPsi p1 p2 = 0 := by
  unfold loxDeltaPsi
  rcases h with h | h <;> rw [h]
  · rw [deg2rad_ninety, tan_shift_pole_pos, div_zero, Real.log_zero]
  · rw [deg2rad_neg_ninety, tan_shift_pole_neg, div_zero, Real.log_zero]

/-- With a pole as the second endpoint, the code's `deltaPsi` is `0` as well. -/
lemma loxDeltaPsi_pole_snd {p1 p2 : Coordinates}
    (h : p2.lat = 90 ∨ p2.lat = -90) : loxDeltaPsi p1 p2 = 0 := by
  unfold loxDeltaPsi
  rcases h with h | h <;> rw [h]
  · rw [deg2rad_ninety, tan_shift_pole_pos, zero_div, Real.log_zero]
  · rw [deg2rad_neg_ninety, tan_shift_pole_neg, zero_div, Real.log_zero]

/-- Valid longitudes keep the wrapped `deltaLon` within `[-π, π]`. -/
lemma loxDeltaLon_le_pi {p1 p2 : Coordinates}
    (h1 : ValidCoord p1) (h2 : ValidCoord p2) : |loxDeltaLon p1 p2| ≤ Real.pi := by
  have hpi := Real.pi_pos
  have hd : |deg2rad (p2.lon - p1.lon)| ≤ 2 * Real.pi := by
    unfold deg2rad
    rw [abs_mul, abs_of_pos (by positivity : (0 : ℝ) < Real.pi / 180)]
    have h360 : |p2.lon - p1.lon| ≤ 360 := by
      rw [abs_le]
      constructor <;> [linarith [h1.2.2.2, h2.2.2.1]; linarith [h1.2.2.1, h2.2.2.2]]
    nlinarith
  unfold loxDeltaLon
  dsimp only
  split_ifs with hw hs
  · rw [abs_le] at hd ⊢
    rw [abs_of_pos hs] at hw
    constructor <;> linarith [hd.1, hd.2]
  · rw [abs_le] at hd ⊢
    push_neg at hs
    rw [abs_of_nonpos hs] at hw
    constructor <;> linarith [hd.1, hd.2]
  · push_neg at hw
    exact hw

/-- The haversine value is unchanged by replacing the raw longitude
difference with the wrapped one. -/
lemma hav_wrap (p1 p2 : Coordinates) :
    hav (deg2rad p1.lat) 0 (deg2rad p2.lat) (loxDeltaLon p1 p2) =
      hav (deg2rad p1.lat) (deg2rad p1.lon) (deg2rad p2.lat) (deg2rad p2.lon) := by
  rw [hav_lon_rel (deg2rad p1.lat) (deg2rad p1.lon), ← deg2rad_sub]
  unfold loxDeltaLon
  dsimp only
  split_ifs with hw hs
  · rw [show -(2 * Real.pi - deg2rad (p2.lon - p1.lon)) =
      deg2rad (p2.lon - p1.lon) - 2 * Real.pi by ring]
    exact hav_lon_sub_two_pi _ _ _ _
  · rw [show 2 * Real.pi + deg2rad (p2.lon - p1.lon) =
      deg2rad (p2.lon - p1.lon) + 2 * Real.pi by ring]
    exact hav_lon_add_two_pi _ _ _ _
  · rfl

/-- The orthodromic angle through the wrapped longitude difference. -/
lemma sAngle_wrap (p1 p2 : Coordinates) :
    sAngle (deg2rad p1.lat) (deg2rad p1.lon) (deg2rad p2.lat) (deg2rad p2.lon) =
      sAngle (deg2rad p1.lat) 0 (deg2rad p2.lat) (loxDeltaLon p1 p2) := by
  rw [sAngle_eq_arccos_hav, sAngle_eq_arccos_hav, hav_wrap]

/-- When one of the cosines vanishes, the central angle degenerates to the
latitude difference. -/
lemma sAngle_meridian_general {φ1 φ2 : ℝ} (l1 l2 : ℝ) (h : |φ2 - φ1| ≤ Real.pi)
    (hc : Real.cos φ1 * Real.cos φ2 = 0) :
    sAngle φ1 l1 φ2 l2 = |φ2 - φ1| := by
  have hpi := Real.pi_pos
  rw [sAngle_as_arcsin _ _ _ _ (le_of_eq hc.symm)]
  unfold hav
  rw [hc, zero_mul, add_zero, Real.sqrt_sq_eq_abs]
  have habs2 : |(φ2 - φ1) / 2| = |φ2 - φ1| / 2 := by rw [abs_div]; norm_num
  rw [abs_sin_eq_sin_abs (by rw [habs2]; linarith), habs2,
    Real.arcsin_sin (by linarith [abs_nonneg (φ2 - φ1)]) (by linarith)]
  ring

/-- On interior latitudes `|Δφ| ≤ |Δψ|`. -/
lemma abs_dphi_le_abs_dpsi {φ1 φ2 : ℝ}
    (h1l : -(Real.pi / 2) < φ1) (h1r : φ1 < Real.pi / 2)
    (h2l : -(Real.pi / 2) < φ2) (h2r : φ2 < Real.pi / 2) :
    |φ2 - φ1| ≤ |psi φ2 - psi φ1| := by
  rcases lt_trichotomy φ1 φ2 with hlt | heq | hgt
  · obtain ⟨ξ, hξ, hs⟩ := psi_slope hlt h1l h2r
    have hcos : 0 < Real.cos ξ :=
      Real.cos_pos_of_mem_Ioo ⟨by linarith [hξ.1], by linarith [hξ.2]⟩
    have hcos1 : Real.cos ξ ≤ 1 := Real.cos_le_one ξ
    have hfrac : 1 ≤ 1 / Real.cos ξ := by
      rw [le_div_iff hcos]; linarith
    have hψpos : 0 < psi φ2 - psi φ1 := by
      rw [hs]; exact mul_pos (sub_pos.2 hlt) (one_div_pos.2 hcos)
    rw [abs_of_pos (sub_pos.2 hlt), abs_of_pos hψpos, hs]
    nlinarith [mul_nonneg (le_of_lt (sub_pos.2 hlt))
      (by linarith : (0 : ℝ) ≤ 1 / Real.cos ξ - 1)]
  · rw [heq]; simp
  · obtain ⟨ξ, hξ, hs⟩ := psi_slope hgt h2l h1r
    have hcos : 0 < Real.cos ξ :=
      Real.cos_pos_of_mem_Ioo ⟨by linarith [hξ.1], by linarith [hξ.2]⟩
    have hcos1 : Real.cos ξ ≤ 1 := Real.cos_le_one ξ
    have hfrac : 1 ≤ 1 / Real.cos ξ := by
      rw [le_div_iff hcos]; linarith
    have hψpos : 0 < psi φ1 - psi φ2 := by
      rw [hs]; exact mul_pos (sub_pos.2 hgt) (one_div_pos.2 hcos)
    rw [abs_sub_comm φ2 φ1, abs_sub_comm (psi φ2) (psi φ1),
      abs_of_pos (sub_pos.2 hgt), abs_of_pos hψpos, hs]
    nlinarith [mul_nonneg (le_of_lt (sub_pos.2 hgt))
      (by linarith : (0 : ℝ) ≤ 1 / Real.cos ξ - 1)]

lemma lat_cases {x : ℝ} (hl : -90 ≤ x) (hr : x ≤ 90) :
    x = 90 ∨ x = -90 ∨ (-90 < x ∧ x < 90) := by
  rcases eq_or_lt_of_le hr with h | h
  · exact Or.inl h
  · rcases eq_or_lt_of_le hl with h2 | h2
    · exact Or.inr (Or.inl h2.symm)
    · exact Or.inr (Or.inr ⟨h2, h⟩)

lemma deg2rad_interior {x : ℝ} (hl : -90 < x) (hr : x < 90) :
    -(Real.pi / 2) < deg2rad x ∧ deg2rad x < Real.pi / 2 := by
  have hp : (0 : ℝ) < Real.pi / 180 := by positivity
  unfold deg2rad
  constructor
  · nlinarith [mul_lt_mul_of_pos_right hl hp]
  · nlinarith [mul_lt_mul_of_pos_right hr hp]

/-- In the exact-real model, `deltaPsi` is the true `ψ` difference whenever
both latitudes are interior. -/
lemma loxDeltaPsi_interior {p1 p2 : Coordinates}
    (i1 : -(Real.pi / 2) < deg2rad p1.lat ∧ deg2rad p1.lat < Real.pi / 2)
    (i2 : -(Real.pi / 2) < deg2rad p2.lat ∧ deg2rad p2.lat < Real.pi / 2) :
    loxDeltaPsi p1 p2 = psi (deg2rad p2.lat) - psi (deg2rad p1.lat) := by
  unfold loxDeltaPsi psi
  rw [Real.log_div (ne_of_gt (tan_half_shift_pos i2.1 i2.2))
    (ne_of_gt (tan_half_shift_pos i1.1 i1.2))]

/-- Branch `|Δψ| > 10e-12` of the loxodromic code: the central angle is at
most the rhumb-line value with `q = Δφ/Δψ`. -/
lemma branchA_bound (p1 p2 : Coordinates) (h1 : ValidCoord p1) (h2 : ValidCoord p2)
    (hA : 10e-12 < |loxDeltaPsi p1 p2|) :
    sAngle (deg2rad p1.lat) 0 (deg2rad p2.lat) (loxDeltaLon p1 p2) ≤
      Real.sqrt ((deg2rad p2.lat - deg2rad p1.lat) ^ 2 +
        ((deg2rad p2.lat - deg2rad p1.lat) / loxDeltaPsi p1 p2) ^ 2 *
          (loxDeltaLon p1 p2) ^ 2) := by
  have hAne : loxDeltaPsi p1 p2 ≠ 0 := by
    intro h0
    rw [h0] at hA
    norm_num at hA
  have hi1 : -90 < p1.lat ∧ p1.lat < 90 := by
    rcases lat_cases h1.1 h1.2.1 with h | h | h
    · exact absurd (loxDeltaPsi_pole_fst (Or.inl h)) hAne
    · exact absurd (loxDeltaPsi_pole_fst (Or.inr h)) hAne
    · exact h
  have hi2 : -90 < p2.lat ∧ p2.lat < 90 := by
    rcases lat_cases h2.1 h2.2.1 with h | h | h
    · exact absurd (loxDeltaPsi_pole_snd (Or.inl h)) hAne
    · exact absurd (loxDeltaPsi_pole_snd (Or.inr h)) hAne
    · exact h
  have i1 := deg2rad_interior hi1.1 hi1.2
  have i2 := deg2rad_interior hi2.1 hi2.2
  have hψ := loxDeltaPsi_interior i1 i2
  have hne : deg2rad p1.lat ≠ deg2rad p2.lat := by
    intro heq
    apply hAne
    rw [hψ, heq, sub_self]
  rcases lt_or_gt_of_ne hne with hlt | hgt
  · have hcore := @rhumb_core (deg2rad p1.lat) (deg2rad p2.lat)
      (loxDeltaLon p1 p2) i1.1 i1.2 i2.1 i2.2 hlt
    rw [← hψ] at hcore
    exact hcore
  · have hlt' : -(deg2rad p1.lat) < -(deg2rad p2.lat) := neg_lt_neg hgt
    have hcore := @rhumb_core (-(deg2rad p1.lat)) (-(deg2rad p2.lat))
      (loxDeltaLon p1 p2) (by linarith [i1.2]) (by linarith [i1.1])
      (by linarith [i2.2]) (by linarith [i2.1]) hlt'
    have hrefl : sAngle (-(deg2rad p1.lat)) 0 (-(deg2rad p2.lat)) (loxDeltaLon p1 p2) =
        sAngle (deg2rad p1.lat) 0 (deg2rad p2.lat) (loxDeltaLon p1 p2) := by
      rw [sAngle_eq_arccos_hav, sAngle_eq_arccos_hav, hav_lat_reflect]
    have hq : (-(deg2rad p2.lat) - -(deg2rad p1.lat)) /
          (psi (-(deg2rad p2.lat)) - psi (-(deg2rad p1.lat))) =
        (deg2rad p2.lat - deg2rad p1.lat) / (psi (deg2rad p2.lat) - psi (deg2rad p1.lat)) := by
      rw [psi_neg, psi_neg,
        show -(deg2rad p2.lat) - -(deg2rad p1.lat) = -(deg2rad p2.lat - deg2rad p1.lat) by ring,
        show -psi (deg2rad p2.lat) - -psi (deg2rad p1.lat) =
          -(psi (deg2rad p2.lat) - psi (deg2rad p1.lat)) by ring,
        neg_div_neg_eq]
    rw [hrefl, hq,
      show (-(deg2rad p2.lat) - -(deg2rad p1.lat)) ^ 2 =
        (deg2rad p2.lat - deg2rad p1.lat) ^ 2 by ring, ← hψ] at hcore
    exact hcore

/-- Branch `|Δψ| ≤ 10e-12` of the loxodromic code (`q = cos φ1`): the
central angle exceeds the rhumb value by at most `1e-11` radians. -/
lemma branchB_bound (p1 p2 : Coordinates) (h1 : ValidCoord p1) (h2 : ValidCoord p2)
    (hB : ¬ (10e-12 < |loxDeltaPsi p1 p2|)) :
    sAngle (deg2rad p1.lat) 0 (deg2rad p2.lat) (loxDeltaLon p1 p2) ≤
      Real.sqrt ((deg2rad p2.lat - deg2rad p1.lat) ^ 2 +
        Real.cos (deg2rad p1.lat) ^ 2 * (loxDeltaLon p1 p2) ^ 2) + 1e-11 := by
  push_neg at hB
  have hpi := Real.pi_pos
  have hb1 := deg2rad_mem_pi_half h1.1 h1.2.1
  have hb2 := deg2rad_mem_pi_half h2.1 h2.2.1
  have hΔφpi : |deg2rad p2.lat - deg2rad p1.lat| ≤ Real.pi := by
    rw [abs_le]
    constructor <;> linarith [hb1.1, hb1.2, hb2.1, hb2.2]
  have hc1 : 0 ≤ Real.cos (deg2rad p1.lat) := cos_deg2rad_nonneg h1.1 h1.2.1
  have hc2 : 0 ≤ Real.cos (deg2rad p2.lat) := cos_deg2rad_nonneg h2.1 h2.2.1
  have hterm0 : 0 ≤ Real.cos (deg2rad p1.lat) ^ 2 * (loxDeltaLon p1 p2) ^ 2 := by positivity
  have hsq_mono : Real.sqrt ((deg2rad p2.lat - deg2rad p1.lat) ^ 2) ≤
      Real.sqrt ((deg2rad p2.lat - deg2rad p1.lat) ^ 2 +
        Real.cos (deg2rad p1.lat) ^ 2 * (loxDeltaLon p1 p2) ^ 2) :=
    Real.sqrt_le_sqrt (by linarith)
  by_cases hp1 : p1.lat = 90 ∨ p1.lat = -90
  · have hcos0 : Real.cos (deg2rad p1.lat) = 0 := by
      rcases hp1 with h | h <;> rw [h]
      · rw [deg2rad_ninety, Real.cos_pi_div_two]
      · rw [deg2rad_neg_ninety, Real.cos_neg, Real.cos_pi_div_two]
    rw [sAngle_meridian_general 0 (loxDeltaLon p1 p2) hΔφpi (by rw [hcos0, zero_mul]),
      ← Real.sqrt_sq_eq_abs]
    linarith [hsq_mono]
  by_cases hp2 : p2.lat = 90 ∨ p2.lat = -90
  · have hcos0 : Real.cos (deg2rad p2.lat) = 0 := by
      rcases hp2 with h | h <;> rw [h]
      · rw [deg2rad_ninety, Real.cos_pi_div_two]
      · rw [deg2rad_neg_ninety, Real.cos_neg, Real.cos_pi_div_two]
    rw [sAngle_meridian_general 0 (loxDeltaLon p1 p2) hΔφpi (by rw [hcos0, mul_zero]),
      ← Real.sqrt_sq_eq_abs]
    linarith [hsq_mono]
  push_neg at hp1 hp2
  have hi1 : -90 < p1.lat ∧ p1.lat < 90 := by
    rcases lat_cases h1.1 h1.2.1 with h | h | h
    · exact absurd h hp1.1
    · exact absurd h hp1.2
    · exact h
  have hi2 : -90 < p2.lat ∧ p2.lat < 90 := by
    rcases lat_cases h2.1 h2.2.1 with h | h | h
    · exact absurd h hp2.1
    · exact absurd h hp2.2
    · exact h
  have i1 := deg2rad_interior hi1.1 hi1.2
  have i2 := deg2rad_interior hi2.1 hi2.2
  have hψ := loxDeltaPsi_interior i1 i2
  have hΔφsmall : |deg2rad p2.lat - deg2rad p1.lat| ≤ 1e-11 := by
    have hle := abs_dphi_le_abs_dpsi i1.1 i1.2 i2.1 i2.2
    rw [← hψ] at hle
    calc |deg2rad p2.lat - deg2rad p1.lat| ≤ |loxDeltaPsi p1 p2| := hle
      _ ≤ 10e-12 := hB
      _ = 1e-11 := by norm_num
  have htri := sAngle_triangle (deg2rad p1.lat) 0 (deg2rad p1.lat) (loxDeltaLon p1 p2)
    (deg2rad p2.lat) (loxDeltaLon p1 p2)
  have hlampi := loxDeltaLon_le_pi h1 h2
  have hpar : sAngle (deg2rad p1.lat) 0 (deg2rad p1.lat) (loxDeltaLon p1 p2) ≤
      Real.cos (deg2rad p1.lat) * |loxDeltaLon p1 p2| := by
    rw [sAngle_parallel _ _ hc1, sub_zero]
    have habs2 : |loxDeltaLon p1 p2 / 2| = |loxDeltaLon p1 p2| / 2 := by
      rw [abs_div]; norm_num
    have hsin_eq : |Real.sin (loxDeltaLon p1 p2 / 2)| =
        Real.sin (|loxDeltaLon p1 p2| / 2) := by
      rw [abs_sin_eq_sin_abs (by rw [habs2]; linarith), habs2]
    rw [hsin_eq]
    have harc := arcsin_mul_sin hc1 (Real.cos_le_one _)
      (by positivity : (0 : ℝ) ≤ |loxDeltaLon p1 p2| / 2)
      (by linarith : |loxDeltaLon p1 p2| / 2 ≤ Real.pi / 2)
    linarith [harc]
  have hmer : sAngle (deg2rad p1.lat) (loxDeltaLon p1 p2)
      (deg2rad p2.lat) (loxDeltaLon p1 p2) = |deg2rad p2.lat - deg2rad p1.lat| :=
    sAngle_meridian _ hΔφpi (mul_nonneg hc1 hc2)
  have hcos_sqrt : Real.cos (deg2rad p1.lat) * |loxDeltaLon p1 p2| =
      Real.sqrt (Real.cos (deg2rad p1.lat) ^ 2 * (loxDeltaLon p1 p2) ^ 2) := by
    rw [show Real.cos (deg2rad p1.lat) ^ 2 * (loxDeltaLon p1 p2) ^ 2 =
        (Real.cos (deg2rad p1.lat) * |loxDeltaLon p1 p2|) ^ 2 by
      rw [mul_pow, sq_abs]]
    rw [Real.sqrt_sq (mul_nonneg hc1 (abs_nonneg _))]
  have hsq2 : Real.sqrt (Real.cos (deg2rad p1.lat) ^ 2 * (loxDeltaLon p1 p2) ^ 2) ≤
      Real.sqrt ((deg2rad p2.lat - deg2rad p1.lat) ^ 2 +
        Real.cos (deg2rad p1.lat) ^ 2 * (loxDeltaLon p1 p2) ^ 2) :=
    Real.sqrt_le_sqrt (by nlinarith [sq_nonneg (deg2rad p2.lat - deg2rad p1.lat)])
  rw [hmer] at htri
  rw [hcos_sqrt] at hpar
  linarith [htri, hpar, hΔφsmall, hsq2]

/-- **C3.** For valid coordinates the loxodromic (rhumb-line) distance of the
code is never below the orthodromic (great-circle) distance, up to the
tolerance `1e-6` km that absorbs the `q = cos φ1` degeneracy cutoff. -/
theorem loxodromic_ge_orthodromic (p1 p2 : Coordinates)
    (h1 : ValidCoord p1) (h2 : ValidCoord p2) :
    calculateOrthodromicDistance p1 p2 - 1e-6 ≤ calculateLoxodromicDistance p1 p2 := by
  rw [calculateOrthodromicDistance_eq_sAngle p1 p2 h1 h2,
    calculateLoxodromicDistance_eq, sAngle_wrap]
  have hkey : sAngle (deg2rad p1.lat) 0 (deg2rad p2.lat) (loxDeltaLon p1 p2) ≤
      Real.sqrt ((deg2rad p2.lat - deg2rad p1.lat) ^ 2 +
        loxQ p1 p2 ^ 2 * (loxDeltaLon p1 p2) ^ 2) + 1e-11 := by
    by_cases hA : 10e-12 < |loxDeltaPsi p1 p2|
    · have hq : loxQ p1 p2 =
          (deg2rad p2.lat - deg2rad p1.lat) / loxDeltaPsi p1 p2 := by
        unfold loxQ; rw [if_pos hA]
      rw [hq]
      linarith [branchA_bound p1 p2 h1 h2 hA]
    · have hq : loxQ p1 p2 = Real.cos (deg2rad p1.lat) := by
        unfold loxQ; rw [if_neg hA]
      rw [hq]
      exact branchB_bound p1 p2 h1 h2 hA
  have hsqrt_eq : Real.sqrt ((deg2rad p2.lat - deg2rad p1.lat) *
        (deg2rad p2.lat - deg2rad p1.lat) +
        loxQ p1 p2 * loxQ p1 p2 * loxDeltaLon p1 p2 * loxDeltaLon p1 p2) =
      Real.sqrt ((deg2rad p2.lat - deg2rad p1.lat) ^ 2 +
        loxQ p1 p2 ^ 2 * (loxDeltaLon p1 p2) ^ 2) := by
    rw [show (deg2rad p2.lat - deg2rad p1.lat) * (deg2rad p2.lat - deg2rad p1.lat) +
        loxQ p1 p2 * loxQ p1 p2 * loxDeltaLon p1 p2 * loxDeltaLon p1 p2 =
      (deg2rad p2.lat - deg2rad p1.lat) ^ 2 +
        loxQ p1 p2 ^ 2 * (loxDeltaLon p1 p2) ^ 2 by ring]
  rw [hsqrt_eq]
  linarith [hkey]

/-- Witness for C3 at Paris/New York. -/
theorem loxodromic_ge_orthodromic_witness :
    (ValidCoord ⟨48.8566, 2.3522⟩ ∧ ValidCoord ⟨40.7128, -74.006⟩) ∧
    calculateOrthodromicDistance ⟨48.8566, 2.3522⟩ ⟨40.7128, -74.006⟩ - 1e-6 ≤
      calculateLoxodromicDistance ⟨48.8566, 2.3522⟩ ⟨40.7128, -74.006⟩ :=
  ⟨⟨by constructor <;> norm_num, by constructor <;> norm_num⟩,
   loxodromic_ge_orthodromic _ _
     (by constructor <;> norm_num) (by constructor <;> norm_num)⟩

/-! ## The loxodromic path sampler of `GlobeVisualization.tsx` -/

/-- The number of segments used by the globe's loxodromic path
(`const numPoints = 50`). -/
def numPoints : ℕ := 50

/-- Sample `i` of the loxodromic path drawn by `GlobeVisualization.tsx`,
as the `[lon, lat]` degree pair the code pushes into `coords`. -/
def loxPathPoint (start stop : Coordinates) (n i : ℕ) : ℝ × ℝ :=
  let lat1 := start.lat * Real.pi / 180
  let lat2 := stop.lat * Real.pi / 180
  let lon1 := start.lon * Real.pi / 180
  let lon2raw := stop.lon * Real.pi / 180
  let lon2 :=
    if Real.pi < |lon2raw - lon1| then
      (if lon1 < lon2raw then lon2raw - 2 * Real.pi else lon2raw + 2 * Real.pi)
    else lon2raw
  let dPsi :=
    Real.log (Real.tan (lat2 / 2 + Real.pi / 4) / Real.tan (lat1 / 2 + Real.pi / 4))
  let f := (i : ℝ) / (n : ℝ)
  let lat_i := lat1 + (lat2 - lat1) * f
  let lon_i :=
    if |dPsi| < 1e-10 then lon1 + (lon2 - lon1) * f
    else lon1 + (lon2 - lon1) *
      (Real.log (Real.tan (lat_i / 2 + Real.pi / 4)) -
        Real.log (Real.tan (lat1 / 2 + Real.pi / 4))) / dPsi
  (lon_i * 180 / Real.pi, lat_i * 180 / Real.pi)

/-- The full sampled `GeoPath` (`numPoints + 1` points) of the globe's
loxodromic route. -/
def loxPathCoords (start stop : Coordinates) : List (ℝ × ℝ) :=
  (List.range (numPoints + 1)).map (loxPathPoint start stop numPoints)

lemma mulpi_eq_deg2rad (x : ℝ) : x * Real.pi / 180 = deg2rad x := by
  unfold deg2rad; ring

/-- The loxodromic distance between two points on the same meridian is
`R` times the (unclamped) latitude difference. -/
lemma lox_same_lon (lat1 lat2 l : ℝ) :
    calculateLoxodromicDistance ⟨lat1, l⟩ ⟨lat2, l⟩ =
      |deg2rad lat2 - deg2rad lat1| * 6371 := by
  unfold calculateLoxodromicDistance
  dsimp only
  have h0 : deg2rad (l - l) = 0 := by rw [sub_self]; unfold deg2rad; ring
  rw [h0, if_neg (show ¬ Real.pi < |(0 : ℝ)| by
    rw [abs_zero]; exact not_lt.2 (le_of_lt Real.pi_pos))]
  have hz : ∀ x : ℝ, x * x * (0 : ℝ) * 0 = 0 := fun x => by ring
  rw [hz, add_zero, Real.sqrt_mul_self_eq_abs]

/-- **C4 (counterexample).** The code does not clamp latitude: at the north
pole the loxodromic distance to the equator is `R·π/2` — the value for
latitude 90° itself — and differs from the value obtained for the clamped
latitude 89.9999°. -/
theorem lox_pole_unclamped_counterexample :
    calculateLoxodromicDistance ⟨90, 0⟩ ⟨0, 0⟩ = 6371 * (Real.pi / 2) ∧
    calculateLoxodromicDistance ⟨90, 0⟩ ⟨0, 0⟩ ≠
      calculateLoxodromicDistance ⟨89.9999, 0⟩ ⟨0, 0⟩ := by
  have hpi := Real.pi_pos
  have h1 : calculateLoxodromicDistance ⟨90, 0⟩ ⟨0, 0⟩ = 6371 * (Real.pi / 2) := by
    rw [lox_same_lon 90 0 0]
    unfold deg2rad
    rw [show (0 : ℝ) * (Real.pi / 180) - 90 * (Real.pi / 180) = -(Real.pi / 2) by ring,
      abs_neg, abs_of_pos (by positivity)]
    ring
  refine ⟨h1, ?_⟩
  rw [h1, lox_same_lon 89.9999 0 0]
  unfold deg2rad
  rw [show (0 : ℝ) * (Real.pi / 180) - 89.9999 * (Real.pi / 180) =
    -(89.9999 * (Real.pi / 180)) by ring, abs_neg, abs_of_pos (by positivity)]
  intro hcon
  nlinarith [hcon, hpi]

/-- **C4 (amended).** No clamping to `[-89.9999, 89.9999]` happens anywhere:
`lat = ±90` flows into the stretched-latitude computation unchanged (the
functions are still total), the loxodromic distance from a pole to the
equator is `R·deg2rad 90`, and the path sampler emits latitude 90 itself. -/
theorem lox_pole_unclamped :
    calculateLoxodromicDistance ⟨90, 0⟩ ⟨0, 0⟩ = 6371 * deg2rad 90 ∧
    calculateLoxodromicDistance ⟨-90, 0⟩ ⟨0, 0⟩ = 6371 * deg2rad 90 ∧
    (loxPathPoint ⟨90, 0⟩ ⟨0, 0⟩ 50 0).2 = 90 := by
  have hpi := Real.pi_pos
  refine ⟨?_, ?_, ?_⟩
  · rw [lox_same_lon 90 0 0, deg2rad_ninety]
    unfold deg2rad
    rw [show (0 : ℝ) * (Real.pi / 180) - Real.pi / 2 = -(Real.pi / 2) by ring,
      abs_neg, abs_of_pos (by positivity)]
    ring
  · rw [lox_same_lon (-90) 0 0, deg2rad_neg_ninety, deg2rad_ninety]
    unfold deg2rad
    rw [show (0 : ℝ) * (Real.pi / 180) - -(Real.pi / 2) = Real.pi / 2 by ring,
      abs_of_pos (by positivity)]
    ring
  · unfold loxPathPoint
    dsimp only
    rw [Nat.cast_zero, zero_div, mul_zero, add_zero]
    field_simp

/-- The antimeridian-adjusted end longitude (radians) of the globe's path
sampler. -/
def adjLon (s e : Coordinates) : ℝ :=
  if Real.pi < |e.lon * Real.pi / 180 - s.lon * Real.pi / 180| then
    (if s.lon * Real.pi / 180 < e.lon * Real.pi / 180 then
      e.lon * Real.pi / 180 - 2 * Real.pi
    else e.lon * Real.pi / 180 + 2 * Real.pi)
  else e.lon * Real.pi / 180

/-- For in-range longitudes the adjusted end longitude is within `π` of the
start longitude. -/
lemma adjLon_close (s e : Coordinates) (hs1 : -180 ≤ s.lon) (hs2 : s.lon ≤ 180)
    (he1 : -180 ≤ e.lon) (he2 : e.lon ≤ 180) :
    |adjLon s e - s.lon * Real.pi / 180| ≤ Real.pi := by
  have hpi := Real.pi_pos
  have hd : |e.lon * Real.pi / 180 - s.lon * Real.pi / 180| ≤ 2 * Real.pi := by
    rw [show e.lon * Real.pi / 180 - s.lon * Real.pi / 180 =
      (e.lon - s.lon) * (Real.pi / 180) by ring]
    rw [abs_mul, abs_of_pos (by positivity : (0 : ℝ) < Real.pi / 180)]
    have h360 : |e.lon - s.lon| ≤ 360 := by
      rw [abs_le]; constructor <;> linarith
    nlinarith
  unfold adjLon
  split_ifs with hw hs
  · rw [abs_of_pos (sub_pos.2 hs)] at hw
    rw [abs_le] at hd ⊢
    constructor <;> linarith [hd.1, hd.2]
  · push_neg at hs
    rw [abs_of_nonpos (by linarith : e.lon * Real.pi / 180 - s.lon * Real.pi / 180 ≤ 0)] at hw
    rw [abs_le] at hd ⊢
    constructor <;> linarith [hd.1, hd.2]
  · push_neg at hw
    exact hw

/-- Closed form of the path sample when the two endpoints share a latitude:
constant latitude, longitude linear between start and adjusted end. -/
lemma loxPathPoint_equal_lat (s e : Coordinates) (hlat : s.lat = e.lat) (n i : ℕ) :
    loxPathPoint s e n i =
      ((s.lon * Real.pi / 180 +
          (adjLon s e - s.lon * Real.pi / 180) * ((i : ℝ) / (n : ℝ))) * 180 / Real.pi,
        s.lat * Real.pi / 180 * 180 / Real.pi) := by
  unfold loxPathPoint adjLon
  dsimp only
  rw [← hlat, sub_self, zero_mul, add_zero]
  have hlog : Real.log (Real.tan (s.lat * Real.pi / 180 / 2 + Real.pi / 4) /
      Real.tan (s.lat * Real.pi / 180 / 2 + Real.pi / 4)) = 0 := by
    rcases eq_or_ne (Real.tan (s.lat * Real.pi / 180 / 2 + Real.pi / 4)) 0 with ht | ht
    · rw [ht, div_zero, Real.log_zero]
    · rw [div_self ht, Real.log_one]
  rw [hlog, if_pos (by rw [abs_zero]; norm_num)]

/-- **C5.** For two equal-latitude endpoints with in-range longitudes, every
sample of the globe's loxodromic path has the shared latitude, the
longitude sequence is monotone, and consecutive samples never jump by more
than 180°. -/
theorem loxPath_equal_lat_props (s e : Coordinates) (hlat : s.lat = e.lat)
    (hs1 : -180 ≤ s.lon) (hs2 : s.lon ≤ 180) (he1 : -180 ≤ e.lon) (he2 : e.lon ≤ 180) :
    (∀ i : ℕ, (loxPathPoint s e numPoints i).2 = s.lat) ∧
    ((Monotone fun i : ℕ => (loxPathPoint s e numPoints i).1) ∨
      (Antitone fun i : ℕ => (loxPathPoint s e numPoints i).1)) ∧
    (∀ i : ℕ, |(loxPathPoint s e numPoints (i + 1)).1 -
      (loxPathPoint s e numPoints i).1| ≤ 180) := by
  have hpi := Real.pi_pos
  have hpne : Real.pi ≠ 0 := ne_of_gt hpi
  have hclose := adjLon_close s e hs1 hs2 he1 he2
  have hpt := loxPathPoint_equal_lat s e hlat numPoints
  have hdiff : ∀ i : ℕ, (loxPathPoint s e numPoints (i + 1)).1 -
      (loxPathPoint s e numPoints i).1 =
      (adjLon s e - s.lon * Real.pi / 180) * (18 / (Real.pi * 5)) := by
    intro i
    rw [hpt (i + 1), hpt i]
    dsimp only
    rw [show ((numPoints : ℝ)) = 50 by norm_num [numPoints]]
    push_cast
    field_simp
    ring
  refine ⟨?_, ?_, ?_⟩
  · intro i
    rw [hpt i]
    dsimp only
    field_simp
  · have hk : (0 : ℝ) < 18 / (Real.pi * 5) := by positivity
    rcases le_total 0 (adjLon s e - s.lon * Real.pi / 180) with hB | hB
    · left
      apply monotone_nat_of_le_succ
      intro i
      have h := hdiff i
      nlinarith [mul_nonneg hB (le_of_lt hk)]
    · right
      apply antitone_nat_of_succ_le
      intro i
      have h := hdiff i
      nlinarith [mul_nonneg (neg_nonneg.2 hB) (le_of_lt hk)]
  · intro i
    rw [hdiff i, abs_mul, abs_of_pos (by positivity : (0 : ℝ) < 18 / (Real.pi * 5))]
    have h1 : |adjLon s e - s.lon * Real.pi / 180| * (18 / (Real.pi * 5)) ≤
        Real.pi * (18 / (Real.pi * 5)) :=
      mul_le_mul_of_nonneg_right hclose (by positivity)
    have h2 : Real.pi * (18 / (Real.pi * 5)) = 18 / 5 := by
      field_simp
      ring
    linarith

/-- Witness for C5 at the antimeridian-crossing pair `(0°, 170°)`,
`(0°, -170°)` named by the spec. -/
theorem loxPath_equal_lat_props_witness :
    ((0 : ℝ) = 0 ∧ (-180 : ℝ) ≤ 170 ∧ (170 : ℝ) ≤ 180 ∧
      (-180 : ℝ) ≤ -170 ∧ (-170 : ℝ) ≤ 180) ∧
    ((∀ i : ℕ, (loxPathPoint ⟨0, 170⟩ ⟨0, -170⟩ numPoints i).2 = (0 : ℝ)) ∧
    ((Monotone fun i : ℕ => (loxPathPoint ⟨0, 170⟩ ⟨0, -170⟩ numPoints i).1) ∨
      (Antitone fun i : ℕ => (loxPathPoint ⟨0, 170⟩ ⟨0, -170⟩ numPoints i).1)) ∧
    (∀ i : ℕ, |(loxPathPoint ⟨0, 170⟩ ⟨0, -170⟩ numPoints (i + 1)).1 -
      (loxPathPoint ⟨0, 170⟩ ⟨0, -170⟩ numPoints i).1| ≤ 180)) :=
  ⟨by norm_num,
   loxPath_equal_lat_props ⟨0, 170⟩ ⟨0, -170⟩ rfl
     (by norm_num) (by norm_num) (by norm_num) (by norm_num)⟩

lemma psi_mono {x y : ℝ} (hx : -(Real.pi / 2) < x) (hy : y < Real.pi / 2)
    (hxy : x ≤ y) : psi x ≤ psi y := by
  rcases eq_or_lt_of_le hxy with h | h
  · rw [h]
  · obtain ⟨ξ, hξ, hs⟩ := psi_slope h hx hy
    have hcos : 0 < Real.cos ξ :=
      Real.cos_pos_of_mem_Ioo ⟨by linarith [hξ.1], by linarith [hξ.2]⟩
    nlinarith [mul_pos (sub_pos.2 h) (one_div_pos.2 hcos)]

lemma rad_to_deg_le360 {x : ℝ} (h : |x| ≤ 2 * Real.pi) :
    -360 ≤ x * 180 / Real.pi ∧ x * 180 / Real.pi ≤ 360 := by
  have hpi := Real.pi_pos
  rw [abs_le] at h
  have hfrac : (0 : ℝ) ≤ 180 / Real.pi := by positivity
  have heq : 2 * Real.pi * (180 / Real.pi) = 360 := by field_simp; ring
  rw [mul_div_assoc]
  constructor
  · have := mul_le_mul_of_nonneg_right h.1 hfrac
    linarith
  · have := mul_le_mul_of_nonneg_right h.2 hfrac
    linarith

lemma rad_to_deg_le90 {x : ℝ} (hl : -(Real.pi / 2) ≤ x) (hr : x ≤ Real.pi / 2) :
    -90 ≤ x * 180 / Real.pi ∧ x * 180 / Real.pi ≤ 90 := by
  have hpi := Real.pi_pos
  have hfrac : (0 : ℝ) ≤ 180 / Real.pi := by positivity
  have heq : Real.pi / 2 * (180 / Real.pi) = 90 := by field_simp; ring
  rw [mul_div_assoc]
  constructor
  · have := mul_le_mul_of_nonneg_right hl hfrac
    linarith
  · have := mul_le_mul_of_nonneg_right hr hfrac
    linarith

lemma loxPathPoint_snd (s e : Coordinates) (n i : ℕ) :
    (loxPathPoint s e n i).2 =
      (s.lat * Real.pi / 180 +
        (e.lat * Real.pi / 180 - s.lat * Real.pi / 180) * ((i : ℝ) / (n : ℝ))) *
        180 / Real.pi := rfl

/-- Strict monotonicity of `ψ` on the open interval. -/
lemma psi_lt {x y : ℝ} (hx : -(Real.pi / 2) < x) (hy : y < Real.pi / 2)
    (hxy : x < y) : psi x < psi y := by
  obtain ⟨ξ, hξ, hs⟩ := psi_slope hxy hx hy
  have hcos : 0 < Real.cos ξ :=
    Real.cos_pos_of_mem_Ioo ⟨by linarith [hξ.1], by linarith [hξ.2]⟩
  nlinarith [mul_pos (sub_pos.2 hxy) (one_div_pos.2 hcos)]

/-- In both branches of the sampler, the longitude of sample `i` is a convex
combination of the start longitude and the adjusted end longitude. -/
lemma loxPathPoint_lon_form (s e : Coordinates) (h1 : ValidCoord s) (h2 : ValidCoord e)
    (i : ℕ) (hi : i ≤ numPoints) :
    ∃ ρ : ℝ, 0 ≤ ρ ∧ ρ ≤ 1 ∧
      (loxPathPoint s e numPoints i).1 =
        (s.lon * Real.pi / 180 + (adjLon s e - s.lon * Real.pi / 180) * ρ) *
          180 / Real.pi := by
  have hpi := Real.pi_pos
  have hn : (0 : ℝ) < (numPoints : ℝ) := by norm_num [numPoints]
  have hf0 : 0 ≤ (i : ℝ) / (numPoints : ℝ) := by positivity
  have hf1 : (i : ℝ) / (numPoints : ℝ) ≤ 1 := by
    rw [div_le_one hn]
    exact_mod_cast hi
  unfold loxPathPoint
  dsimp only
  rw [mulpi_eq_deg2rad s.lat, mulpi_eq_deg2rad e.lat]
  have hfold : Real.log (Real.tan (deg2rad e.lat / 2 + Real.pi / 4) /
      Real.tan (deg2rad s.lat / 2 + Real.pi / 4)) = loxDeltaPsi s e := rfl
  have hlon2 : (if Real.pi < |e.lon * Real.pi / 180 - s.lon * Real.pi / 180| then
      (if s.lon * Real.pi / 180 < e.lon * Real.pi / 180 then
        e.lon * Real.pi / 180 - 2 * Real.pi
      else e.lon * Real.pi / 180 + 2 * Real.pi)
    else e.lon * Real.pi / 180) = adjLon s e := rfl
  rw [hfold, hlon2]
  split_ifs with hB
  · exact ⟨(i : ℝ) / (numPoints : ℝ), hf0, hf1, rfl⟩
  · have hne : loxDeltaPsi s e ≠ 0 := by
      intro h0
      rw [h0] at hB
      norm_num at hB
    have hi1 : -90 < s.lat ∧ s.lat < 90 := by
      rcases lat_cases h1.1 h1.2.1 with h | h | h
      · exact absurd (loxDeltaPsi_pole_fst (Or.inl h)) hne
      · exact absurd (loxDeltaPsi_pole_fst (Or.inr h)) hne
      · exact h
    have hi2 : -90 < e.lat ∧ e.lat < 90 := by
      rcases lat_cases h2.1 h2.2.1 with h | h | h
      · exact absurd (loxDeltaPsi_pole_snd (Or.inl h)) hne
      · exact absurd (loxDeltaPsi_pole_snd (Or.inr h)) hne
      · exact h
    have i1 := deg2rad_interior hi1.1 hi1.2
    have i2 := deg2rad_interior hi2.1 hi2.2
    have hψ := loxDeltaPsi_interior i1 i2
    obtain ⟨li, hli_def⟩ : ∃ li : ℝ, li = deg2rad s.lat +
        (deg2rad e.lat - deg2rad s.lat) * ((i : ℝ) / (numPoints : ℝ)) := ⟨_, rfl⟩
    have hmin_le : min (deg2rad s.lat) (deg2rad e.lat) ≤ li := by
      rw [hli_def]
      nlinarith [mul_nonneg (sub_nonneg.2 hf1)
          (sub_nonneg.2 (min_le_left (deg2rad s.lat) (deg2rad e.lat))),
        mul_nonneg hf0 (sub_nonneg.2 (min_le_right (deg2rad s.lat) (deg2rad e.lat)))]
    have hle_max : li ≤ max (deg2rad s.lat) (deg2rad e.lat) := by
      rw [hli_def]
      nlinarith [mul_nonneg (sub_nonneg.2 hf1)
          (sub_nonneg.2 (le_max_left (deg2rad s.lat) (deg2rad e.lat))),
        mul_nonneg hf0 (sub_nonneg.2 (le_max_right (deg2rad s.lat) (deg2rad e.lat)))]
    have hli_lb : -(Real.pi / 2) < li := lt_of_lt_of_le (lt_min i1.1 i2.1) hmin_le
    have hli_ub : li < Real.pi / 2 := lt_of_le_of_lt hle_max (max_lt i1.2 i2.2)
    have hfold2 : Real.log (Real.tan ((deg2rad s.lat +
        (deg2rad e.lat - deg2rad s.lat) * ((i : ℝ) / (numPoints : ℝ))) / 2 +
          Real.pi / 4)) = psi li := by rw [hli_def]; rfl
    have hfold3 : Real.log (Real.tan (deg2rad s.lat / 2 + Real.pi / 4)) =
        psi (deg2rad s.lat) := rfl
    rw [hfold2, hfold3]
    refine ⟨(psi li - psi (deg2rad s.lat)) / loxDeltaPsi s e, ?_, ?_, by ring⟩
    · rcases lt_trichotomy (deg2rad s.lat) (deg2rad e.lat) with hlt | heq | hgt
      · have hdψ : 0 < loxDeltaPsi s e := by
          rw [hψ]; exact sub_pos.2 (psi_lt i1.1 i2.2 hlt)
        have hnum : 0 ≤ psi li - psi (deg2rad s.lat) :=
          sub_nonneg.2 (psi_mono i1.1 hli_ub
            (by rw [← min_eq_left (le_of_lt hlt)]; exact hmin_le))
        exact div_nonneg hnum (le_of_lt hdψ)
      · exact absurd (by rw [hψ, heq, sub_self]) hne
      · have hdψ : loxDeltaPsi s e < 0 := by
          rw [hψ]; exact sub_neg.2 (psi_lt i2.1 i1.2 hgt)
        have hnum : psi li - psi (deg2rad s.lat) ≤ 0 :=
          sub_nonpos.2 (psi_mono hli_lb i1.2
            (by rw [← max_eq_left (le_of_lt hgt)]; exact hle_max))
        rw [show (psi li - psi (deg2rad s.lat)) / loxDeltaPsi s e =
          (-(psi li - psi (deg2rad s.lat))) / (-loxDeltaPsi s e) by
            rw [neg_div_neg_eq]]
        exact div_nonneg (by linarith) (by linarith)
    · rcases lt_trichotomy (deg2rad s.lat) (deg2rad e.lat) with hlt | heq | hgt
      · have hdψ : 0 < loxDeltaPsi s e := by
          rw [hψ]; exact sub_pos.2 (psi_lt i1.1 i2.2 hlt)
        have hnum : psi li ≤ psi (deg2rad e.lat) :=
          psi_mono hli_lb i2.2
            (by rw [← max_eq_right (le_of_lt hlt)]; exact hle_max)
        rw [div_le_one hdψ, hψ]
        linarith
      · exact absurd (by rw [hψ, heq, sub_self]) hne
      · have hdψ : loxDeltaPsi s e < 0 := by
          rw [hψ]; exact sub_neg.2 (psi_lt i2.1 i1.2 hgt)
        have hnum : psi (deg2rad e.lat) ≤ psi li :=
          psi_mono i2.1 hli_ub
            (by rw [← min_eq_right (le_of_lt hgt)]; exact hmin_le)
        rw [show (psi li - psi (deg2rad s.lat)) / loxDeltaPsi s e =
          (-(psi li - psi (deg2rad s.lat))) / (-loxDeltaPsi s e) by
            rw [neg_div_neg_eq]]
        rw [div_le_one (by linarith : (0:ℝ) < -loxDeltaPsi s e), hψ]
        linarith


/-- Witness for C2 at Paris/New York. -/
theorem loxodromic_matches_spec_witness :
    (ValidCoord ⟨48.8566, 2.3522⟩ ∧ ValidCoord ⟨40.7128, -74.006⟩) ∧
    calculateLoxodromicDistance ⟨48.8566, 2.3522⟩ ⟨40.7128, -74.006⟩ =
      loxodromicDistanceKm ⟨48.8566, 2.3522⟩ ⟨40.7128, -74.006⟩ :=
  ⟨⟨by constructor <;> norm_num, by constructor <;> norm_num⟩,
   loxodromic_matches_spec _ _
     (by constructor <;> norm_num) (by constructor <;> norm_num)⟩

/-- A convex combination `a + (b - a) * f`, `f ∈ [0,1]`, stays inside any
interval containing both endpoints. -/
lemma convex_between {a b f : ℝ} (hf0 : 0 ≤ f) (hf1 : f ≤ 1) (lo hi : ℝ)
    (ha : lo ≤ a ∧ a ≤ hi) (hb : lo ≤ b ∧ b ≤ hi) :
    lo ≤ a + (b - a) * f ∧ a + (b - a) * f ≤ hi := by
  constructor
  · nlinarith [mul_nonneg (sub_nonneg.2 hf1) (sub_nonneg.2 ha.1),
      mul_nonneg hf0 (sub_nonneg.2 hb.1)]
  · nlinarith [mul_nonneg (sub_nonneg.2 hf1) (sub_nonneg.2 ha.2),
      mul_nonneg hf0 (sub_nonneg.2 hb.2)]

/-- **C6 (amended).** For valid inputs, every point of the sampled loxodromic
path has latitude in `[-90, 90]`; the longitude, however, is only guaranteed
to lie in `[-360, 360]`: the antimeridian-adjusted end longitude is NOT
wrapped back into `[-180, 180]` before being returned (see the
counterexample, where a longitude of `190` is emitted). -/
theorem loxPath_geo_range (s e : Coordinates) (h1 : ValidCoord s) (h2 : ValidCoord e) :
    ∀ p ∈ loxPathCoords s e,
      (-90 ≤ p.2 ∧ p.2 ≤ 90) ∧ (-360 ≤ p.1 ∧ p.1 ≤ 360) := by
  have hpi := Real.pi_pos
  intro p hp
  unfold loxPathCoords at hp
  rw [List.mem_map] at hp
  obtain ⟨i, hir, rfl⟩ := hp
  rw [List.mem_range, Nat.lt_succ_iff] at hir
  have hn : (0 : ℝ) < (numPoints : ℝ) := by norm_num [numPoints]
  have hf0 : 0 ≤ (i : ℝ) / (numPoints : ℝ) := by positivity
  have hf1 : (i : ℝ) / (numPoints : ℝ) ≤ 1 := by
    rw [div_le_one hn]; exact_mod_cast hir
  constructor
  · rw [loxPathPoint_snd]
    have ha : -(Real.pi / 2) ≤ s.lat * Real.pi / 180 ∧
        s.lat * Real.pi / 180 ≤ Real.pi / 2 := by
      constructor <;> nlinarith [h1.1, h1.2.1]
    have hb : -(Real.pi / 2) ≤ e.lat * Real.pi / 180 ∧
        e.lat * Real.pi / 180 ≤ Real.pi / 2 := by
      constructor <;> nlinarith [h2.1, h2.2.1]
    have hx := convex_between hf0 hf1 (-(Real.pi / 2)) (Real.pi / 2) ha hb
    exact rad_to_deg_le90 hx.1 hx.2
  · obtain ⟨ρ, hρ0, hρ1, heq⟩ := loxPathPoint_lon_form s e h1 h2 i hir
    rw [heq]
    have hclose := adjLon_close s e h1.2.2.1 h1.2.2.2 h2.2.2.1 h2.2.2.2
    rw [abs_le] at hclose
    have ha1 : -Real.pi ≤ s.lon * Real.pi / 180 ∧
        s.lon * Real.pi / 180 ≤ Real.pi := by
      constructor <;> nlinarith [h1.2.2.1, h1.2.2.2]
    have ha : -(2 * Real.pi) ≤ s.lon * Real.pi / 180 ∧
        s.lon * Real.pi / 180 ≤ 2 * Real.pi := by
      constructor <;> linarith [ha1.1, ha1.2]
    have hb : -(2 * Real.pi) ≤ adjLon s e ∧ adjLon s e ≤ 2 * Real.pi := by
      constructor <;> linarith [ha1.1, ha1.2, hclose.1, hclose.2]
    have hx := convex_between hρ0 hρ1 (-(2 * Real.pi)) (2 * Real.pi) ha hb
    exact rad_to_deg_le360 (abs_le.2 hx)

theorem loxPath_geo_range_witness :
    ValidCoord ⟨48.8566, 2.3522⟩ ∧ ValidCoord ⟨40.7128, -74.006⟩ ∧
      ((-90 ≤ (loxPathPoint ⟨48.8566, 2.3522⟩ ⟨40.7128, -74.006⟩ numPoints 7).2 ∧
          (loxPathPoint ⟨48.8566, 2.3522⟩ ⟨40.7128, -74.006⟩ numPoints 7).2 ≤ 90) ∧
        (-360 ≤ (loxPathPoint ⟨48.8566, 2.3522⟩ ⟨40.7128, -74.006⟩ numPoints 7).1 ∧
          (loxPathPoint ⟨48.8566, 2.3522⟩ ⟨40.7128, -74.006⟩ numPoints 7).1 ≤ 360)) :=
  ⟨by constructor <;> norm_num,
   by constructor <;> norm_num,
   loxPath_geo_range ⟨48.8566, 2.3522⟩ ⟨40.7128, -74.006⟩
     (by constructor <;> norm_num) (by constructor <;> norm_num)
     (loxPathPoint ⟨48.8566, 2.3522⟩ ⟨40.7128, -74.006⟩ numPoints 7)
     (by unfold loxPathCoords
         exact List.mem_map_of_mem _ (List.mem_range.2 (by norm_num [numPoints])))⟩

/-- Counterexample to the literal C6 claim: for the antimeridian-crossing pair
`(0°, 170°)`, `(0°, -170°)` the final sample's longitude is `190`, outside
`[-180, 180]` — the adjusted longitude is never wrapped back. -/
theorem loxPath_lon_out_of_range_counterexample :
    loxPathPoint ⟨0, 170⟩ ⟨0, -170⟩ numPoints 50 ∈
        loxPathCoords ⟨0, 170⟩ ⟨0, -170⟩ ∧
      (loxPathPoint ⟨0, 170⟩ ⟨0, -170⟩ numPoints 50).1 = 190 ∧
      ¬ (loxPathPoint ⟨0, 170⟩ ⟨0, -170⟩ numPoints 50).1 ≤ 180 := by
  have hpi := Real.pi_pos
  have hA : adjLon ⟨0, 170⟩ ⟨0, -170⟩ = 190 * Real.pi / 180 := by
    unfold adjLon
    dsimp only
    have hcond : Real.pi < |(-170 : ℝ) * Real.pi / 180 - 170 * Real.pi / 180| := by
      rw [show (-170 : ℝ) * Real.pi / 180 - 170 * Real.pi / 180 =
        -(17 * Real.pi / 9) by ring, abs_neg, abs_of_pos (by positivity)]
      nlinarith
    have hcond2 : ¬ ((170 : ℝ) * Real.pi / 180 < (-170 : ℝ) * Real.pi / 180) := by
      intro h; nlinarith
    rw [if_pos hcond, if_neg hcond2]
    ring
  have hval : (loxPathPoint ⟨0, 170⟩ ⟨0, -170⟩ numPoints 50).1 = 190 := by
    rw [loxPathPoint_equal_lat ⟨0, 170⟩ ⟨0, -170⟩ rfl]
    dsimp only
    rw [hA]
    have h50 : ((50 : ℕ) : ℝ) / ((numPoints : ℕ) : ℝ) = 1 := by
      norm_num [numPoints]
    rw [h50, mul_one]
    field_simp
  refine ⟨?_, hval, by rw [hval]; norm_num⟩
  unfold loxPathCoords
  exact List.mem_map_of_mem _ (List.mem_range.2 (by norm_num [numPoints]))

/-! ### C7: orthographic visibility culling -/

/-- Modelled from the spec: `d3.geoDistance` is the angular (great-circle)
distance in radians between two `(lon, lat)` degree pairs (the d3 library
itself is not part of `src/`). -/
def geoDistance (a b : ℝ × ℝ) : ℝ :=
  sAngle (deg2rad a.2) (deg2rad a.1) (deg2rad b.2) (deg2rad b.1)

/-- The endpoint display attribute computed by `redrawElements` in
`GlobeVisualization.tsx`: `gdistance = d3.geoDistance(d, [-rotate[0],
-rotate[1]])`, `isVisible = gdistance <= Math.PI / 2`, and the style is
`isVisible ? 'inline' : 'none'`. -/
def endpointDisplay (lam0 phi0 : ℝ) (p : ℝ × ℝ) : String :=
  if geoDistance p (-lam0, -phi0) ≤ Real.pi / 2 then "inline" else "none"

/-- Modelled from the spec: the rotation adding `α` to longitude (the first
component of the standard map-projection Euler rotation). -/
def rotZ (α : ℝ) (v : ℝ × ℝ × ℝ) : ℝ × ℝ × ℝ :=
  (Real.cos α * v.1 - Real.sin α * v.2.1,
   Real.sin α * v.1 + Real.cos α * v.2.1,
   v.2.2)

/-- Modelled from the spec: the rotation lifting latitude by `β` along the
prime meridian (the second component of the Euler rotation). -/
def rotY (β : ℝ) (v : ℝ × ℝ × ℝ) : ℝ × ℝ × ℝ :=
  (Real.cos β * v.1 - Real.sin β * v.2.2,
   v.2.1,
   Real.sin β * v.1 + Real.cos β * v.2.2)

/-- Modelled from the spec: the orthographic projection with view rotation
`(lam0, phi0)` (degrees), scale `sc` and translate `(tx, ty)`: rotate the
sphere point by the view rotation, return `none` for a back-hemisphere
point, otherwise project onto the viewing plane, scale and translate. -/
def orthographicProject (lam0 phi0 sc tx ty : ℝ) (p : ℝ × ℝ) : Option (ℝ × ℝ) :=
  let v := rotY (deg2rad phi0) (rotZ (deg2rad lam0)
    (sphPoint (deg2rad p.2) (deg2rad p.1)))
  if v.1 < 0 then none
  else some (tx + sc * v.2.1, ty - sc * v.2.2)

/-- Two unit sphere points with dot product `1` coincide. -/
lemma sph_eq_of_dot_one {a1 a2 b1 b2 : ℝ}
    (h : dot3 (sphPoint a1 a2) (sphPoint b1 b2) = 1) :
    sphPoint a1 a2 = sphPoint b1 b2 := by
  have hA := dot3_sph_self a1 a2
  have hB := dot3_sph_self b1 b2
  unfold dot3 sphPoint at h hA hB
  dsimp only at h hA hB
  unfold sphPoint
  have e1 : (Real.cos a1 * Real.cos a2 - Real.cos b1 * Real.cos b2) ^ 2 +
      (Real.cos a1 * Real.sin a2 - Real.cos b1 * Real.sin b2) ^ 2 +
      (Real.sin a1 - Real.sin b1) ^ 2 = 0 := by
    linear_combination hA + hB - 2 * h
  have s1 := sq_nonneg (Real.cos a1 * Real.cos a2 - Real.cos b1 * Real.cos b2)
  have s2 := sq_nonneg (Real.cos a1 * Real.sin a2 - Real.cos b1 * Real.sin b2)
  have s3 := sq_nonneg (Real.sin a1 - Real.sin b1)
  refine Prod.ext ?_ (Prod.ext ?_ ?_) <;> dsimp only <;> nlinarith

/-- The view rotation carries the view center `(-lam0, -phi0)` to the front
pole `(1, 0, 0)` of the viewing frame. -/
lemma rot_center (lam0 phi0 : ℝ) :
    rotY (deg2rad phi0) (rotZ (deg2rad lam0)
      (sphPoint (deg2rad (-phi0)) (deg2rad (-lam0)))) = (1, 0, 0) := by
  rw [deg2rad_neg, deg2rad_neg]
  unfold rotY rotZ sphPoint
  dsimp only
  rw [Real.cos_neg, Real.cos_neg, Real.sin_neg, Real.sin_neg]
  refine Prod.ext ?_ (Prod.ext ?_ ?_) <;> dsimp only
  · linear_combination (Real.cos (deg2rad phi0)) ^ 2 *
      Real.sin_sq_add_cos_sq (deg2rad lam0) + Real.sin_sq_add_cos_sq (deg2rad phi0)
  · ring
  · linear_combination (Real.sin (deg2rad phi0) * Real.cos (deg2rad phi0)) *
      Real.sin_sq_add_cos_sq (deg2rad lam0)

/-- **C7.** An endpoint drawn on the globe is styled invisible exactly when
its angular distance from the view center `(-lam0, -phi0)` exceeds `π/2`;
a point at angular distance `0` from the view center is styled visible and
the orthographic projection sends it to the viewport center `(tx, ty)`. -/
theorem ortho_endpoint_visibility (lam0 phi0 sc tx ty : ℝ) (p : ℝ × ℝ) :
    (endpointDisplay lam0 phi0 p = "none" ↔
      Real.pi / 2 < geoDistance p (-lam0, -phi0)) ∧
    (geoDistance p (-lam0, -phi0) = 0 →
      endpointDisplay lam0 phi0 p = "inline" ∧
      orthographicProject lam0 phi0 sc tx ty p = some (tx, ty)) := by
  constructor
  · unfold endpointDisplay
    split_ifs with hle
    · simp only [not_lt.2 hle, iff_false]
      intro hc
      exact absurd hc (by decide)
    · simp only [not_le.1 hle, iff_true]
  · intro h0
    have hdisp : endpointDisplay lam0 phi0 p = "inline" := by
      unfold endpointDisplay
      rw [if_pos (by rw [h0]; positivity)]
    refine ⟨hdisp, ?_⟩
    have hdot : dot3 (sphPoint (deg2rad p.2) (deg2rad p.1))
        (sphPoint (deg2rad (-phi0)) (deg2rad (-lam0))) = 1 := by
      unfold geoDistance sAngle at h0
      dsimp only at h0
      have hle := dot3_le_one (dot3_sph_self (deg2rad p.2) (deg2rad p.1))
        (dot3_sph_self (deg2rad (-phi0)) (deg2rad (-lam0)))
      have hge := neg_one_le_dot3 (dot3_sph_self (deg2rad p.2) (deg2rad p.1))
        (dot3_sph_self (deg2rad (-phi0)) (deg2rad (-lam0)))
      have := Real.arccos_eq_zero.1 h0
      linarith
    have heqv := sph_eq_of_dot_one hdot
    unfold orthographicProject
    dsimp only
    rw [heqv, rot_center]
    rw [if_neg (by norm_num)]
    norm_num

theorem ortho_endpoint_visibility_witness :
    geoDistance (0, 0) (-(0 : ℝ), -(0 : ℝ)) = 0 ∧
      (endpointDisplay 0 0 (0, 0) = "inline" ∧
        orthographicProject 0 0 5 100 200 (0, 0) = some (100, 200)) := by
  have h0 : geoDistance ((0 : ℝ), (0 : ℝ)) (-(0 : ℝ), -(0 : ℝ)) = 0 := by
    unfold geoDistance sAngle sphPoint dot3 deg2rad
    norm_num [Real.arccos_one]
  exact ⟨h0, (ortho_endpoint_visibility 0 0 5 100 200 (0, 0)).2 h0⟩

/-! ### C8: zoom-factor invariants -/

/-- The `scaleExtent` of the Mercator zoom behavior
(`MercatorVisualization.tsx`: `zoom.scaleExtent([0.8, 18])`). -/
def mercatorScaleExtent : ℝ × ℝ := (0.8, 18)

/-- The `scaleExtent` of the globe zoom behavior
(`GlobeVisualization.tsx`: `zoomBehavior.scaleExtent([0.8, 10])`). -/
def globeScaleExtent : ℝ × ℝ := (0.8, 10)

/-- Modelled from the spec: a wheel/pinch zoom event multiplies the current
factor by the event factor and the behavior clamps the result to its
`scaleExtent` before persisting it. -/
def zoomStep (ext : ℝ × ℝ) (k factor : ℝ) : ℝ :=
  max ext.1 (min ext.2 (k * factor))

/-- The auto-fit zoom factor computed in `MercatorVisualization.tsx`:
`scale = Math.max(0.8, Math.min(18, 0.9 / Math.max(dx / width, dy / height)))`
with `dx`, `dy` the sides of the bounding box of the two projected
endpoints. -/
def autofitScale (width height : ℝ) (p1 p2 : ℝ × ℝ) : ℝ :=
  let dx := max p1.1 p2.1 - min p1.1 p2.1
  let dy := max p1.2 p2.2 - min p1.2 p2.2
  max 0.8 (min 18 (0.9 / max (dx / width) (dy / height)))

/-- **C8.** The zoom factor is an invariant of every view-state transition:
starting from any Mercator factor in `[0.8, 18]`, any sequence of zoom
events leaves it in `[0.8, 18]`, and the auto-fit factor always lies in
`[0.8, 18]`; starting from any globe scale multiplier in `[0.8, 10]`, any
sequence of zoom events leaves it in `[0.8, 10]`. -/
theorem zoom_factor_invariant :
    (∀ (factors : List ℝ) (k : ℝ), 0.8 ≤ k → k ≤ 18 →
      0.8 ≤ factors.foldl (zoomStep mercatorScaleExtent) k ∧
        factors.foldl (zoomStep mercatorScaleExtent) k ≤ 18) ∧
    (∀ (width height : ℝ) (p1 p2 : ℝ × ℝ),
      0.8 ≤ autofitScale width height p1 p2 ∧
        autofitScale width height p1 p2 ≤ 18) ∧
    (∀ (factors : List ℝ) (k : ℝ), 0.8 ≤ k → k ≤ 10 →
      0.8 ≤ factors.foldl (zoomStep globeScaleExtent) k ∧
        factors.foldl (zoomStep globeScaleExtent) k ≤ 10) := by
  refine ⟨?_, ?_, ?_⟩
  · intro factors
    induction factors with
    | nil => exact fun k h1 h2 => ⟨h1, h2⟩
    | cons a t ih =>
        intro k h1 h2
        rw [List.foldl_cons]
        refine ih _ (le_max_left _ _) (max_le ?_ (min_le_left _ _))
        norm_num [mercatorScaleExtent]
  · intro width height p1 p2
    unfold autofitScale
    exact ⟨le_max_left _ _, max_le (by norm_num) (min_le_left _ _)⟩
  · intro factors
    induction factors with
    | nil => exact fun k h1 h2 => ⟨h1, h2⟩
    | cons a t ih =>
        intro k h1 h2
        rw [List.foldl_cons]
        refine ih _ (le_max_left _ _) (max_le ?_ (min_le_left _ _))
        norm_num [globeScaleExtent]

theorem zoom_factor_invariant_witness :
    ((0.8 : ℝ) ≤ 1 ∧ (1 : ℝ) ≤ 18 ∧ (1 : ℝ) ≤ 10) ∧
    (0.8 ≤ [25, 0.1].foldl (zoomStep mercatorScaleExtent) 1 ∧
      [25, 0.1].foldl (zoomStep mercatorScaleExtent) 1 ≤ 18) ∧
    (0.8 ≤ autofitScale 800 600 (100, 100) (100, 100) ∧
      autofitScale 800 600 (100, 100) (100, 100) ≤ 18) ∧
    (0.8 ≤ [12, 0.3].foldl (zoomStep globeScaleExtent) 1 ∧
      [12, 0.3].foldl (zoomStep globeScaleExtent) 1 ≤ 10) :=
  ⟨⟨by norm_num, by norm_num, by norm_num⟩,
   zoom_factor_invariant.1 [25, 0.1] 1 (by norm_num) (by norm_num),
   zoom_factor_invariant.2.1 800 600 (100, 100) (100, 100),
   zoom_factor_invariant.2.2 [12, 0.3] 1 (by norm_num) (by norm_num)⟩

/-! ### C9: view-state behavior when the path is cleared -/

/-- Modelled from the spec: `d3.zoomIdentity`, the identity pan/zoom
transform `(k, tx, ty) = (1, 0, 0)`. -/
structure ZoomTransform where
  k : ℝ
  tx : ℝ
  ty : ℝ

def zoomIdentity : ZoomTransform := ⟨1, 0, 0⟩

/-- The transition issued by the Mercator points effect
(`MercatorVisualization.tsx`): with points present, a 1250 ms transition to
the auto-fit transform computed from the projected endpoints; with points
cleared, a 750 ms transition to `d3.zoomIdentity`. The duration is the
first component. -/
def mercatorPointsTransition (width height : ℝ) (proj : ℝ × ℝ → ℝ × ℝ)
    (points : Option ((ℝ × ℝ) × (ℝ × ℝ))) : ℕ × ZoomTransform :=
  match points with
  | none => (750, zoomIdentity)
  | some (s, e) =>
      let p1 := proj s
      let p2 := proj e
      let x := (min p1.1 p2.1 + max p1.1 p2.1) / 2
      let y := (min p1.2 p2.2 + max p1.2 p2.2) / 2
      let scale := autofitScale width height p1 p2
      (1250, ⟨scale, width / 2 - scale * x, height / 2 - scale * y⟩)

/-- The globe's view state: projection rotation `(lambda, phi)` and scale. -/
structure GlobeViewState where
  rotLam : ℝ
  rotPhi : ℝ
  scaleVal : ℝ

/-- The globe's initial view state (`GlobeVisualization.tsx`:
`.scale(Math.min(width, height) / 2.2)` and `.rotate([0, -20])`). -/
def globeInitialViewState (width height : ℝ) : GlobeViewState :=
  ⟨0, -20, min width height / 2.2⟩

/-- The globe's points effect with `points = null`
(`GlobeVisualization.tsx` lines 116-128): it runs only
`svg.selectAll('.flight-path, .endpoint').remove()` — the path elements are
removed (`false` in the second component) and the projection's rotation and
scale are left untouched. -/
def globeClearEffect (v : GlobeViewState) : GlobeViewState × Bool := (v, false)

/-- **C9 (amended).** Clearing the path resets only the Mercator view: the
Mercator component issues a 750 ms animated transition back to the identity
transform, but the globe's clear branch merely removes the path and
endpoint elements and leaves the globe's rotation and scale unchanged — the
orthographic view state is NOT reset to its default (see the
counterexample). -/
theorem clear_path_view_reset (width height : ℝ) (proj : ℝ × ℝ → ℝ × ℝ) :
    mercatorPointsTransition width height proj none = (750, zoomIdentity) ∧
    (∀ v : GlobeViewState, (globeClearEffect v).1 = v ∧
      (globeClearEffect v).2 = false) :=
  ⟨rfl, fun v => ⟨rfl, rfl⟩⟩

/-- Counterexample to the literal C9 claim: a globe view state rotated to
`(30, 40)` survives a clear unchanged, and differs from the default
rotation `(0, -20)` — the globe mode does not reset its view on clear. -/
theorem globe_clear_no_reset_counterexample :
    (globeClearEffect ⟨30, 40, 500⟩).1 = (⟨30, 40, 500⟩ : GlobeViewState) ∧
      ((globeClearEffect ⟨30, 40, 500⟩).1.rotLam ≠
          (globeInitialViewState 800 600).rotLam ∨
        (globeClearEffect ⟨30, 40, 500⟩).1.rotPhi ≠
          (globeInitialViewState 800 600).rotPhi) := by
  refine ⟨rfl, Or.inl ?_⟩
  show (30 : ℝ) ≠ 0
  norm_num

/-! ### C10: the visualize request clears points and keeps them cleared on
failure -/

/-- `LocationPoint` from `types.ts`: a display name and its coordinates. -/
structure LocationPoint where
  name : String
  coords : Coordinates

/-- The `App` component state touched by `handleVisualize`
(`src/unnamed/part_000`): the displayed point pair, the loading flag and
the error message. -/
structure AppState where
  points : Option (LocationPoint × LocationPoint)
  isLoading : Bool
  error : Option String

/-- The state set by `handleVisualize` before awaiting the two geocoding
calls: `setIsLoading(true); setError(null); setPoints(null)`. -/
def preAwaitState : AppState :=
  { points := none, isLoading := true, error := none }

/-- `handleVisualize` from `src/unnamed/part_000` as a state transformer.
The two geocoding outcomes are passed in: `Except.error m` models a
rejected promise with message `m` (the `Promise.all` await throws the
first rejection), `Except.ok v` a resolved call returning `v`
(`none` models a `null` coordinate result, which triggers the
`Could not find coordinates` throw inside the `try`). -/
def handleVisualize (s : AppState) (fromStr toStr : String)
    (fromRes toRes : Except String (Option Coordinates)) : AppState :=
  if fromStr = "" ∨ toStr = "" then
    { s with error := some "Please enter both a start and end location." }
  else
    match fromRes with
    | Except.error m =>
        { preAwaitState with
            error := some ("Failed to fetch location data: " ++ m),
            isLoading := false }
    | Except.ok fromCoords =>
        match toRes with
        | Except.error m =>
            { preAwaitState with
                error := some ("Failed to fetch location data: " ++ m),
                isLoading := false }
        | Except.ok toCoords =>
            match fromCoords, toCoords with
            | some fc, some tc =>
                { points := some (⟨fromStr, fc⟩, ⟨toStr, tc⟩),
                  isLoading := false,
                  error := none }
            | _, _ =>
                { preAwaitState with
                    error := some ("Failed to fetch location data: " ++
                      "Could not find coordinates for one or both locations."),
                    isLoading := false }

/-- **C10.** A non-empty visualize request clears the displayed point pair
before awaiting the geocoding calls (the pre-await state has no points),
and whenever either geocoding call fails or returns no coordinates, the
request ends with no points displayed, an error message set, and loading
finished — the previous path is not retained. -/
theorem visualize_failure_clears_points (s : AppState) (fromStr toStr : String)
    (hf : fromStr ≠ "") (ht : toStr ≠ "")
    (fromRes toRes : Except String (Option Coordinates))
    (hfail : ¬ ∃ fc tc, fromRes = Except.ok (some fc) ∧
      toRes = Except.ok (some tc)) :
    preAwaitState.points = none ∧
    (handleVisualize s fromStr toStr fromRes toRes).points = none ∧
    (handleVisualize s fromStr toStr fromRes toRes).error ≠ none ∧
    (handleVisualize s fromStr toStr fromRes toRes).isLoading = false := by
  refine ⟨rfl, ?_⟩
  unfold handleVisualize
  rw [if_neg (not_or.2 ⟨hf, ht⟩)]
  match fromRes, toRes with
  | Except.error m, _ => exact ⟨rfl, by simp, rfl⟩
  | Except.ok fc, Except.error m => exact ⟨rfl, by simp, rfl⟩
  | Except.ok none, Except.ok tc =>
      cases tc <;> exact ⟨rfl, by simp, rfl⟩
  | Except.ok (some fc), Except.ok none => exact ⟨rfl, by simp, rfl⟩
  | Except.ok (some fc), Except.ok (some tc) =>
      exact absurd ⟨fc, tc, rfl, rfl⟩ hfail

theorem visualize_failure_clears_points_witness :
    preAwaitState.points = none ∧
    (handleVisualize
      { points := some (⟨"Old", ⟨1, 2⟩⟩, ⟨"Pair", ⟨3, 4⟩⟩),
        isLoading := false, error := none }
      "Paris, France" "Atlantis"
      (Except.ok (some ⟨48.8566, 2.3522⟩)) (Except.ok none)).points = none ∧
    (handleVisualize
      { points := some (⟨"Old", ⟨1, 2⟩⟩, ⟨"Pair", ⟨3, 4⟩⟩),
        isLoading := false, error := none }
      "Paris, France" "Atlantis"
      (Except.ok (some ⟨48.8566, 2.3522⟩)) (Except.ok none)).error ≠ none ∧
    (handleVisualize
      { points := some (⟨"Old", ⟨1, 2⟩⟩, ⟨"Pair", ⟨3, 4⟩⟩),
        isLoading := false, error := none }
      "Paris, France" "Atlantis"
      (Except.ok (some ⟨48.8566, 2.3522⟩)) (Except.ok none)).isLoading = false :=
  visualize_failure_clears_points _ "Paris, France" "Atlantis"
    (by simp) (by simp) _ _
    (by rintro ⟨fc, tc, h1, h2⟩; simp at h2)

end
